import Mathlib

/-!
Verification of the K256 SDK binary wire-protocol decoder and dispatch layer
(`src/rust/src/ws/decoder.rs`, `src/rust/src/ws/client.rs`,
`src/rust/src/types/messages.rs`, `src/rust/src/types/fees.rs`).

Bytes are modelled as `List Nat` (each element a byte value).  Fallible
decoding is modelled in `DecM α = Except Panic (Except DecodeError α)`:
`.error p` models a Rust panic with its reason `p`, `.ok (.error e)` models
an `Err(e)` return, `.ok (.ok a)` a successful decode.  Mutable cursor
state is passed explicitly as a `Nat` offset.

The panic sites of the source are modelled explicitly, for a 64-bit target
(`usize` = 64 bits) under the overflow-checked (debug/test) profile:

* slice indexing `&data[a..b]` and byte indexing `data[i]` panic when the
  range is out of bounds (`Panic.outOfBounds`);
* `usize` additions and multiplications that mix the cursor with an
  attacker-controlled `u64`/`u32` value (the `offset + state_len as usize`,
  `offset + name_len as usize`, `offset + (num_mints as usize) * 32` and
  batch `offset + length as usize` guards) panic on overflow
  (`Panic.arithOverflow`); in the release profile the same additions wrap
  and the subsequent slice panics or the error carries a wrapped size.
  Additions of small constants to the cursor (`*offset + 8` and the like)
  cannot overflow for any realizable buffer (a Rust slice holds at most
  `isize::MAX` bytes) and are modelled exactly;
* `Vec::with_capacity(n)` panics with a capacity overflow when
  `n * size_of::<T>()` exceeds `isize::MAX` (`Panic.capacityOverflow`);
  element sizes are those of the x86-64 layout (only their order of
  magnitude matters here).  An allocation failure for a huge but
  representable request is OS-dependent and not modelled.
-/

namespace K256

/-- Byte sequences (payloads) are lists of byte values. -/
abbrev Bytes := List Nat

/-- Decoder error type, from `DecodeError` in `ws/decoder.rs`.
`payloadTooShort` is the error the spec calls `TruncatedPayload`. -/
inductive DecodeError where
  | payloadTooShort (expected actual : Nat)
  | invalidUtf8
  | invalidMessageType (b : Nat)
  | invalidNetworkState (b : Nat)
deriving DecidableEq, Repr

deriving instance DecidableEq for Except

/-- Reasons the source can panic while decoding. -/
inductive Panic where
  | outOfBounds
  | arithOverflow
  | capacityOverflow
deriving DecidableEq, Repr

/-- Decode computations: `.error p` models a Rust panic with reason `p`,
`.ok (.error e)` an `Err`, `.ok (.ok a)` an `Ok`. -/
abbrev DecM (α : Type) := Except Panic (Except DecodeError α)

/-- Successful return. -/
def DecM.pure {α : Type} (a : α) : DecM α := Except.ok (Except.ok a)

/-- Error return (Rust `return Err(e)` / `?` propagation). -/
def DecM.throw {α : Type} (e : DecodeError) : DecM α :=
  Except.ok (Except.error e)

/-- A panic with its reason. -/
def DecM.panicWith {α : Type} (p : Panic) : DecM α := Except.error p

/-- Sequencing with `?`-style error propagation; panics propagate. -/
def DecM.bind {α β : Type} (x : DecM α) (f : α → DecM β) : DecM β :=
  match x with
  | Except.error p => Except.error p
  | Except.ok (Except.error e) => Except.ok (Except.error e)
  | Except.ok (Except.ok a) => f a

/-- Largest `isize` value on a 64-bit target; a Rust allocation request or
slice length can never exceed it. -/
def isizeMax : Nat := 2 ^ 63 - 1

/-- Checked `usize` addition of a cursor and an attacker-controlled length
(the overflow-checked profile panics on overflow). -/
def usizeAdd (a b : Nat) : DecM Nat :=
  if a + b < 2 ^ 64 then DecM.pure (a + b)
  else DecM.panicWith .arithOverflow

/-- Checked `usize` multiplication (the overflow-checked profile panics on
overflow). -/
def usizeMul (a b : Nat) : DecM Nat :=
  if a * b < 2 ^ 64 then DecM.pure (a * b)
  else DecM.panicWith .arithOverflow

/-- `Vec::<T>::with_capacity(n)` where `size_of::<T>() = k`: panics with a
capacity overflow when the requested allocation exceeds `isize::MAX`
bytes. -/
def withCapacity (n k : Nat) : DecM Unit :=
  if n * k ≤ isizeMax then DecM.pure ()
  else DecM.panicWith .capacityOverflow

/-- The sub-list `data[a..b]` (empty-safe form used to state results). -/
def extract (data : Bytes) (a b : Nat) : Bytes := (data.drop a).take (b - a)

/-- Rust slice indexing `&data[a..b]`: panics when `a > b` or `b > data.len()`. -/
def sliceIdx (data : Bytes) (a b : Nat) : DecM Bytes :=
  if a ≤ b ∧ b ≤ data.length then DecM.pure (extract data a b)
  else DecM.panicWith .outOfBounds

/-- Rust byte indexing `data[i]`: panics when out of bounds. -/
def byteAt (data : Bytes) (i : Nat) : DecM Nat :=
  if i < data.length then DecM.pure (data.getD i 0)
  else DecM.panicWith .outOfBounds

/-- Value of a byte list read as a little-endian integer
(`uNN::from_le_bytes`). -/
def leNat (s : Bytes) : Nat := s.foldr (fun b acc => b + 256 * acc) 0

/-- Mirror of `read_u64` in `ws/decoder.rs`. -/
def read_u64 (data : Bytes) (off : Nat) : DecM (Nat × Nat) :=
  if off + 8 > data.length then
    DecM.throw (.payloadTooShort (off + 8) data.length)
  else
    DecM.bind (sliceIdx data off (off + 8)) fun s =>
      DecM.pure (leNat s, off + 8)

/-- Mirror of `read_u32` in `ws/decoder.rs`. -/
def read_u32 (data : Bytes) (off : Nat) : DecM (Nat × Nat) :=
  if off + 4 > data.length then
    DecM.throw (.payloadTooShort (off + 4) data.length)
  else
    DecM.bind (sliceIdx data off (off + 4)) fun s =>
      DecM.pure (leNat s, off + 4)

/-- Mirror of `read_u16` in `ws/decoder.rs`. -/
def read_u16 (data : Bytes) (off : Nat) : DecM (Nat × Nat) :=
  if off + 2 > data.length then
    DecM.throw (.payloadTooShort (off + 2) data.length)
  else
    DecM.bind (sliceIdx data off (off + 2)) fun s =>
      DecM.pure (leNat s, off + 2)

/-- Two's-complement interpretation of a 32-bit little-endian value. -/
def i32OfNat (n : Nat) : Int :=
  if n < 2 ^ 31 then (n : Int) else (n : Int) - 2 ^ 32

/-- Mirror of `read_i32` in `ws/decoder.rs`. -/
def read_i32 (data : Bytes) (off : Nat) : DecM (Int × Nat) :=
  if off + 4 > data.length then
    DecM.throw (.payloadTooShort (off + 4) data.length)
  else
    DecM.bind (sliceIdx data off (off + 4)) fun s =>
      DecM.pure (i32OfNat (leNat s), off + 4)

/-- The base58 (Bitcoin) digit alphabet used by the `bs58` crate. -/
def b58Chars : List Char :=
  ['1', '2', '3', '4', '5', '6', '7', '8', '9',
   'A', 'B', 'C', 'D', 'E', 'F', 'G', 'H', 'J', 'K', 'L', 'M', 'N',
   'P', 'Q', 'R', 'S', 'T', 'U', 'V', 'W', 'X', 'Y', 'Z',
   'a', 'b', 'c', 'd', 'e', 'f', 'g', 'h', 'i', 'j', 'k', 'm', 'n',
   'o', 'p', 'q', 'r', 's', 't', 'u', 'v', 'w', 'x', 'y', 'z']

/-- Digit `d` of the base58 alphabet. -/
def b58Char (d : Nat) : Char := b58Chars.getD d '1'

/-- Value of a byte list read as a big-endian integer (bs58 interprets the
input bytes as one big-endian number). -/
def beNat (s : Bytes) : Nat := s.foldl (fun acc b => acc * 256 + b) 0

/-- Base58 digit string (most significant first) of `n`, fuel-driven so that
it reduces computationally; `natToB58` supplies sufficient fuel. -/
def natToB58Aux : Nat → Nat → List Char
  | 0, _ => []
  | fuel + 1, n => if n = 0 then [] else natToB58Aux fuel (n / 58) ++ [b58Char (n % 58)]

/-- Base58 digits of `n`, most significant first (empty for `0`). -/
def natToB58 (n : Nat) : List Char := natToB58Aux n n

/-- Number of leading zero bytes (each becomes a literal '1'). -/
def countLeadingZeros : Bytes → Nat
  | [] => 0
  | b :: bs => if b = 0 then countLeadingZeros bs + 1 else 0

/-- Mirror of `bs58::encode(..).into_string()` used throughout the decoder. -/
def base58Encode (bs : Bytes) : String :=
  String.mk (List.replicate (countLeadingZeros bs) '1' ++ natToB58 (beNat bs))

/-- Whether a byte is a UTF-8 continuation byte (0x80–0xBF). -/
def contB (c : Nat) : Bool := 0x80 ≤ c && c ≤ 0xBF

/-- RFC 3629 UTF-8 validity, the check performed by Rust's
`String::from_utf8`. -/
def validUtf8 : Bytes → Bool
  | [] => true
  | b :: rest =>
    if b ≤ 0x7F then validUtf8 rest
    else if b < 0xC2 then false
    else if b ≤ 0xDF then
      match rest with
      | c1 :: r => contB c1 && validUtf8 r
      | [] => false
    else if b ≤ 0xEF then
      match rest with
      | c1 :: c2 :: r =>
          (if b = 0xE0 then decide (0xA0 ≤ c1 ∧ c1 ≤ 0xBF)
           else if b = 0xED then decide (0x80 ≤ c1 ∧ c1 ≤ 0x9F)
           else contB c1) && contB c2 && validUtf8 r
      | _ => false
    else if b ≤ 0xF4 then
      match rest with
      | c1 :: c2 :: c3 :: r =>
          (if b = 0xF0 then decide (0x90 ≤ c1 ∧ c1 ≤ 0xBF)
           else if b = 0xF4 then decide (0x80 ≤ c1 ∧ c1 ≤ 0x8F)
           else contB c1) && contB c2 && contB c3 && validUtf8 r
      | _ => false
    else false

/-- Network congestion state, from `types/fees.rs`. -/
inductive NetworkState where
  | Low
  | Normal
  | High
  | Extreme
deriving DecidableEq, Repr

/-- Mirror of `impl TryFrom<u8> for NetworkState` in `types/fees.rs`. -/
def NetworkState.tryFromByte (v : Nat) : Except Nat NetworkState :=
  if v = 0 then .ok .Low
  else if v = 1 then .ok .Normal
  else if v = 2 then .ok .High
  else if v = 3 then .ok .Extreme
  else .error v

/-- Binary message type identifiers, from `types/messages.rs`. -/
inductive MessageType where
  | PoolUpdate
  | Subscribe
  | Subscribed
  | Unsubscribe
  | PriorityFees
  | Blockhash
  | Quote
  | QuoteSubscribed
  | SubscribeQuote
  | UnsubscribeQuote
  | Ping
  | Pong
  | Heartbeat
  | PoolUpdateBatch
  | BlockStats
  | SubscribePrice
  | PriceUpdate
  | PriceBatch
  | PriceSnapshot
  | UnsubscribePrice
  | ErrorMsg
deriving DecidableEq, Repr

/-- Mirror of `impl TryFrom<u8> for MessageType` in `types/messages.rs`. -/
def MessageType.tryFromByte (v : Nat) : Except Nat MessageType :=
  if v = 0x01 then .ok .PoolUpdate
  else if v = 0x02 then .ok .Subscribe
  else if v = 0x03 then .ok .Subscribed
  else if v = 0x04 then .ok .Unsubscribe
  else if v = 0x05 then .ok .PriorityFees
  else if v = 0x06 then .ok .Blockhash
  else if v = 0x07 then .ok .Quote
  else if v = 0x08 then .ok .QuoteSubscribed
  else if v = 0x09 then .ok .SubscribeQuote
  else if v = 0x0A then .ok .UnsubscribeQuote
  else if v = 0x0B then .ok .Ping
  else if v = 0x0C then .ok .Pong
  else if v = 0x0D then .ok .Heartbeat
  else if v = 0x0E then .ok .PoolUpdateBatch
  else if v = 0x0F then .ok .BlockStats
  else if v = 0x10 then .ok .SubscribePrice
  else if v = 0x11 then .ok .PriceUpdate
  else if v = 0x12 then .ok .PriceBatch
  else if v = 0x13 then .ok .PriceSnapshot
  else if v = 0x14 then .ok .UnsubscribePrice
  else if v = 0xFF then .ok .ErrorMsg
  else .error v

/-- Order book level, from `types/pool.rs` (`price`, `size` are `u64`). -/
structure OrderLevel where
  price : Nat
  size : Nat
deriving DecidableEq, Repr

/-- Pool state update, from `types/pool.rs`.  The decoded `protocol_name`
`String` is represented by its UTF-8 byte sequence (decode validates it);
`pool_address` and `token_mints` are the base58 renderings the decoder
produces. -/
structure PoolUpdate where
  sequence : Nat
  slot : Nat
  write_version : Nat
  protocol_name : Bytes
  pool_address : String
  token_mints : List String
  token_balances : List Nat
  token_decimals : List Int
  best_bid : Option OrderLevel
  best_ask : Option OrderLevel
  serialized_state : Bytes
deriving DecidableEq, Repr

/-- Per-writable-account fee data, from `types/fees.rs`.  The `f32` field
`utilization_pct` is represented by its raw little-endian 32-bit pattern
(`f32::from_le_bytes` is a bijection on bit patterns). -/
structure AccountFee where
  pubkey : String
  total_txs : Nat
  active_slots : Nat
  cu_consumed : Nat
  utilization_bits : Nat
  p25 : Nat
  p50 : Nat
  p75 : Nat
  p90 : Nat
  min_nonzero_price : Nat
deriving DecidableEq, Repr

/-- Fee market update, from `types/fees.rs`; `block_utilization_pct` is
kept as its raw 32-bit little-endian pattern. -/
structure FeeMarket where
  slot : Nat
  timestamp_ms : Nat
  recommended : Nat
  state : NetworkState
  is_stale : Bool
  block_utilization_bits : Nat
  blocks_in_window : Nat
  accounts : List AccountFee
deriving DecidableEq, Repr

/-- Recent blockhash, from `types/blockhash.rs`. -/
structure Blockhash where
  slot : Nat
  timestamp_ms : Nat
  blockhash : String
  block_height : Nat
  last_valid_block_height : Nat
  is_stale : Bool
deriving DecidableEq, Repr

/-- Connection heartbeat with stats, from `types/heartbeat.rs`
(`subscriptions` is a `u32`). -/
structure Heartbeat where
  timestamp_ms : Nat
  uptime_seconds : Nat
  messages_received : Nat
  messages_sent : Nat
  subscriptions : Nat
deriving DecidableEq, Repr

/-- Mirror of `decode_optional_order_level` in `ws/decoder.rs`: a 1-byte
presence flag (0 = absent, nonzero = present) then `price:u64`, `size:u64`. -/
def decode_optional_order_level (data : Bytes) (off : Nat) :
    DecM (Option OrderLevel × Nat) :=
  if off ≥ data.length then
    DecM.throw (.payloadTooShort (off + 1) data.length)
  else
    DecM.bind (byteAt data off) fun b =>
      if b = 0 then DecM.pure (none, off + 1)
      else
        DecM.bind (read_u64 data (off + 1)) fun pr =>
          DecM.bind (read_u64 data pr.2) fun sz =>
            DecM.pure (some ⟨pr.1, sz.1⟩, sz.2)

/-- The `for _ in 0..num_mints` loop of `decode_pool_update`: reads `n`
consecutive 32-byte mint addresses, base58-encoding each. -/
def readMints (data : Bytes) : Nat → Nat → DecM (List String × Nat)
  | 0, off => DecM.pure ([], off)
  | n + 1, off =>
    DecM.bind (sliceIdx data off (off + 32)) fun chunk =>
      DecM.bind (readMints data n (off + 32)) fun rest =>
        DecM.pure (base58Encode chunk :: rest.1, rest.2)

/-- The `for _ in 0..num_balances` loop of `decode_pool_update`. -/
def readBalances (data : Bytes) : Nat → Nat → DecM (List Nat × Nat)
  | 0, off => DecM.pure ([], off)
  | n + 1, off =>
    DecM.bind (read_u64 data off) fun v =>
      DecM.bind (readBalances data n v.2) fun rest =>
        DecM.pure (v.1 :: rest.1, rest.2)

/-- The `for _ in 0..num_decimals` loop of `decode_pool_update`. -/
def readDecimals (data : Bytes) : Nat → Nat → DecM (List Int × Nat)
  | 0, off => DecM.pure ([], off)
  | n + 1, off =>
    DecM.bind (read_i32 data off) fun v =>
      DecM.bind (readDecimals data n v.2) fun rest =>
        DecM.pure (v.1 :: rest.1, rest.2)

/-- Mirror of `decode_pool_update` in `ws/decoder.rs`.  The three guards
that add an attacker-controlled `u64` length to the cursor use checked
`usize` arithmetic (`usizeAdd`/`usizeMul`), and the three
`Vec::with_capacity` calls of the source are modelled at their source
positions (element sizes: `String` = 24, `u64` = 8, `i32` = 4 bytes). -/
def decode_pool_update (data : Bytes) : DecM PoolUpdate :=
  DecM.bind (read_u64 data 0) fun sl =>
  DecM.bind (usizeAdd sl.2 sl.1) fun stEnd =>
  if stEnd > data.length then
    DecM.throw (.payloadTooShort stEnd data.length)
  else
  DecM.bind (sliceIdx data sl.2 stEnd) fun serialized_state =>
  DecM.bind (read_u64 data stEnd) fun seq =>
  DecM.bind (read_u64 data seq.2) fun slot =>
  DecM.bind (read_u64 data slot.2) fun wv =>
  DecM.bind (read_u64 data wv.2) fun nl =>
  DecM.bind (usizeAdd nl.2 nl.1) fun nameEnd =>
  if nameEnd > data.length then
    DecM.throw (.payloadTooShort nameEnd data.length)
  else
  DecM.bind (sliceIdx data nl.2 nameEnd) fun nameBytes =>
  if ¬ validUtf8 nameBytes then DecM.throw .invalidUtf8
  else
  if nameEnd + 32 > data.length then
    DecM.throw (.payloadTooShort (nameEnd + 32) data.length)
  else
  DecM.bind (sliceIdx data nameEnd (nameEnd + 32)) fun addr =>
  DecM.bind (read_u64 data (nameEnd + 32)) fun nm =>
  DecM.bind (usizeMul nm.1 32) fun mintsBytes =>
  DecM.bind (usizeAdd nm.2 mintsBytes) fun mintsEnd =>
  if mintsEnd > data.length then
    DecM.throw (.payloadTooShort mintsEnd data.length)
  else
  DecM.bind (withCapacity nm.1 24) fun _ =>
  DecM.bind (readMints data nm.1 nm.2) fun mints =>
  DecM.bind (read_u64 data mints.2) fun nb =>
  DecM.bind (withCapacity nb.1 8) fun _ =>
  DecM.bind (readBalances data nb.1 nb.2) fun balances =>
  DecM.bind (read_u64 data balances.2) fun nd =>
  DecM.bind (withCapacity nd.1 4) fun _ =>
  DecM.bind (readDecimals data nd.1 nd.2) fun decimals =>
  DecM.bind (decode_optional_order_level data decimals.2) fun bid =>
  DecM.bind (decode_optional_order_level data bid.2) fun ask =>
  DecM.pure
    { sequence := seq.1
      slot := slot.1
      write_version := wv.1
      protocol_name := nameBytes
      pool_address := base58Encode addr
      token_mints := mints.1
      token_balances := balances.1
      token_decimals := decimals.1
      best_bid := bid.1
      best_ask := ask.1
      serialized_state := serialized_state }

/-- The `for _ in 0..count` loop of `decode_pool_update_batch`: each
sub-record is a `u32` length followed by a Pool Update payload; the
`offset + length as usize` guard uses checked `usize` addition. -/
def decodeBatchSubs (data : Bytes) : Nat → Nat → DecM (List PoolUpdate × Nat)
  | 0, off => DecM.pure ([], off)
  | n + 1, off =>
    DecM.bind (read_u32 data off) fun ln =>
    DecM.bind (usizeAdd ln.2 ln.1) fun subEnd =>
    if subEnd > data.length then
      DecM.throw (.payloadTooShort subEnd data.length)
    else
    DecM.bind (sliceIdx data ln.2 subEnd) fun sub =>
    DecM.bind (decode_pool_update sub) fun u =>
    DecM.bind (decodeBatchSubs data n subEnd) fun rest =>
      DecM.pure (u :: rest.1, rest.2)

/-- Mirror of `decode_pool_update_batch` in `ws/decoder.rs`, including its
`Vec::with_capacity(count as usize)` (`size_of::<PoolUpdate>()` = 216
bytes; the `u16` count keeps it far from the capacity limit). -/
def decode_pool_update_batch (data : Bytes) : DecM (List PoolUpdate) :=
  DecM.bind (read_u16 data 0) fun cnt =>
  DecM.bind (withCapacity cnt.1 216) fun _ =>
  DecM.bind (decodeBatchSubs data cnt.1 cnt.2) fun updates =>
    DecM.pure updates.1

/-- The `for _ in 0..account_count` loop of `decode_fee_market`: each
account record is a fixed 92 bytes. -/
def readAccounts (data : Bytes) : Nat → Nat → DecM (List AccountFee × Nat)
  | 0, off => DecM.pure ([], off)
  | n + 1, off =>
    if off + 92 > data.length then
      DecM.throw (.payloadTooShort (off + 92) data.length)
    else
    DecM.bind (sliceIdx data off (off + 32)) fun pk =>
    DecM.bind (read_u32 data (off + 32)) fun tt =>
    DecM.bind (read_u32 data tt.2) fun as_ =>
    DecM.bind (read_u64 data as_.2) fun cu =>
    DecM.bind (sliceIdx data cu.2 (cu.2 + 4)) fun ub =>
    DecM.bind (read_u64 data (cu.2 + 4)) fun p25 =>
    DecM.bind (read_u64 data p25.2) fun p50 =>
    DecM.bind (read_u64 data p50.2) fun p75 =>
    DecM.bind (read_u64 data p75.2) fun p90 =>
    DecM.bind (read_u64 data p90.2) fun mn =>
    DecM.bind (readAccounts data n mn.2) fun rest =>
      DecM.pure
        ({ pubkey := base58Encode pk
           total_txs := tt.1
           active_slots := as_.1
           cu_consumed := cu.1
           utilization_bits := leNat ub
           p25 := p25.1
           p50 := p50.1
           p75 := p75.1
           p90 := p90.1
           min_nonzero_price := mn.1 } :: rest.1, rest.2)

/-- Mirror of `decode_fee_market` in `ws/decoder.rs`, including its
unguarded `Vec::with_capacity(account_count as usize)`
(`size_of::<AccountFee>()` = 88 bytes), which panics with a capacity
overflow for huge declared account counts. -/
def decode_fee_market (data : Bytes) : DecM FeeMarket :=
  if data.length < 42 then
    DecM.throw (.payloadTooShort 42 data.length)
  else
  DecM.bind (read_u64 data 0) fun slot =>
  DecM.bind (read_u64 data slot.2) fun ts =>
  DecM.bind (read_u64 data ts.2) fun rec_ =>
  DecM.bind (byteAt data rec_.2) fun sb =>
  DecM.bind
    (match NetworkState.tryFromByte sb with
     | .ok s => DecM.pure s
     | .error b => DecM.throw (.invalidNetworkState b)) fun state =>
  DecM.bind (byteAt data (rec_.2 + 1)) fun isb =>
  DecM.bind (sliceIdx data (rec_.2 + 2) (rec_.2 + 6)) fun ub =>
  DecM.bind (read_u32 data (rec_.2 + 6)) fun bw =>
  DecM.bind (read_u64 data bw.2) fun ac =>
  DecM.bind (withCapacity ac.1 88) fun _ =>
  DecM.bind (readAccounts data ac.1 ac.2) fun accounts =>
  DecM.pure
    { slot := slot.1
      timestamp_ms := ts.1
      recommended := rec_.1
      state := state
      is_stale := isb != 0
      block_utilization_bits := leNat ub
      blocks_in_window := bw.1
      accounts := accounts.1 }

/-- Mirror of `decode_blockhash` in `ws/decoder.rs`. -/
def decode_blockhash (data : Bytes) : DecM Blockhash :=
  if data.length < 65 then
    DecM.throw (.payloadTooShort 65 data.length)
  else
  DecM.bind (read_u64 data 0) fun slot =>
  DecM.bind (read_u64 data slot.2) fun ts =>
  DecM.bind (sliceIdx data ts.2 (ts.2 + 32)) fun hb =>
  DecM.bind (read_u64 data (ts.2 + 32)) fun bh =>
  DecM.bind (read_u64 data bh.2) fun lv =>
  DecM.bind (byteAt data lv.2) fun sb =>
  DecM.pure
    { slot := slot.1
      timestamp_ms := ts.1
      blockhash := base58Encode hb
      block_height := bh.1
      last_valid_block_height := lv.1
      is_stale := sb != 0 }

/-- Decoded message variants, from `DecodedMessage` in `ws/client.rs`.
The `Quote`, `Heartbeat` and `Subscribed` variants are never produced by
`decode_message`; their payload details are irrelevant here (`quote` is
kept abstract). -/
inductive DecodedMessage where
  | poolUpdate (u : PoolUpdate)
  | poolUpdateBatch (us : List PoolUpdate)
  | feeMarket (f : FeeMarket)
  | blockhash (b : Blockhash)
  | quote
  | heartbeat (h : Heartbeat)
  | errorText (msg : Bytes)
  | subscribed (channels : List String)
deriving DecidableEq, Repr

/-- Mirror of `decode_message` in `ws/decoder.rs`. -/
def decode_message (msg_type : Nat) (payload : Bytes) :
    DecM (Option DecodedMessage) :=
  DecM.bind
    (match MessageType.tryFromByte msg_type with
     | .ok t => DecM.pure t
     | .error b => DecM.throw (.invalidMessageType b)) fun mt =>
  match mt with
  | .PoolUpdate =>
      DecM.bind (decode_pool_update payload) fun u =>
        DecM.pure (some (.poolUpdate u))
  | .PoolUpdateBatch =>
      DecM.bind (decode_pool_update_batch payload) fun us =>
        DecM.pure (some (.poolUpdateBatch us))
  | .PriorityFees =>
      DecM.bind (decode_fee_market payload) fun f =>
        DecM.pure (some (.feeMarket f))
  | .Blockhash =>
      DecM.bind (decode_blockhash payload) fun b =>
        DecM.pure (some (.blockhash b))
  | .ErrorMsg =>
      if validUtf8 payload then DecM.pure (some (.errorText payload))
      else DecM.throw .invalidUtf8
  | .Pong => DecM.pure none
  | _ => DecM.pure none

/-- Which handler callbacks are currently registered (`on_*` slots of
`K256WebSocketClient`). -/
structure HandlerRegistry where
  pool_update_registered : Bool
  fee_market_registered : Bool
  blockhash_registered : Bool
  quote_registered : Bool
  heartbeat_registered : Bool
  error_registered : Bool
deriving DecidableEq, Repr

/-- One handler invocation performed by the binary-frame receive loop. -/
inductive Event where
  | poolUpdateCall (u : PoolUpdate)
  | feeMarketCall (f : FeeMarket)
  | blockhashCall (b : Blockhash)
  | quoteCall
  | heartbeatCall (h : Heartbeat)
  | errorCall (msg : Bytes)
deriving DecidableEq, Repr

/-- Handler invocations for one decoded message, mirroring the
`Ok(Some(decoded))` match in the receive task of `ws/client.rs`
(`Some(cb)` checks become registry flags; `Subscribed` only logs). -/
def dispatchDecoded (reg : HandlerRegistry) : DecodedMessage → List Event
  | .poolUpdate u =>
      if reg.pool_update_registered then [.poolUpdateCall u] else []
  | .poolUpdateBatch us =>
      if reg.pool_update_registered then us.map Event.poolUpdateCall else []
  | .feeMarket f =>
      if reg.fee_market_registered then [.feeMarketCall f] else []
  | .blockhash b =>
      if reg.blockhash_registered then [.blockhashCall b] else []
  | .quote => if reg.quote_registered then [.quoteCall] else []
  | .heartbeat h =>
      if reg.heartbeat_registered then [.heartbeatCall h] else []
  | .errorText m => if reg.error_registered then [.errorCall m] else []
  | .subscribed _ => []

/-- Handler invocations for one inbound binary frame, mirroring the
`Ok(Message::Binary(data))` arm of the receive task in `ws/client.rs`:
an empty frame is skipped; otherwise byte 0 is the discriminant and the
rest the payload; `Ok(None)` and `Err(_)` outcomes only log.  The outer
`Option` is `none` exactly when decoding panics. -/
def handleBinaryFrame (reg : HandlerRegistry) (frame : Bytes) :
    Option (List Event) :=
  match frame with
  | [] => some []
  | t :: payload =>
    match decode_message t payload with
    | Except.error _ => none
    | Except.ok (Except.error _) => some []
    | Except.ok (Except.ok none) => some []
    | Except.ok (Except.ok (some decoded)) => some (dispatchDecoded reg decoded)

/-- JSON values as produced by `serde_json` parsing; numbers are modelled
as integers (the fields the client reads are integral counters). -/
inductive Json where
  | null
  | bool (b : Bool)
  | num (n : Int)
  | str (s : String)
  | arr (elems : List Json)
  | obj (fields : List (String × Json))

/-- Mirror of `serde_json::Value::get(key)` on an object's field list. -/
def jsonLookup (fields : List (String × Json)) (k : String) : Option Json :=
  (fields.find? (fun p => p.fst == k)).map Prod.snd

/-- Mirror of `serde_json::Value::as_u64`: `some` exactly for integers
representable as `u64`. -/
def asU64 : Json → Option Nat
  | .num n => if 0 ≤ n ∧ n < 2 ^ 64 then some n.toNat else none
  | _ => none

/-- The `Heartbeat` the client builds from a heartbeat JSON object:
each field defaults to 0 when missing or not a `u64`
(`.and_then(|v| v.as_u64()).unwrap_or(0)`); `subscriptions` is truncated
`as u32`. -/
def mkHeartbeat (fields : List (String × Json)) : Heartbeat :=
  { timestamp_ms := ((jsonLookup fields "timestamp_ms").bind asU64).getD 0
    uptime_seconds := ((jsonLookup fields "uptime_seconds").bind asU64).getD 0
    messages_received :=
      ((jsonLookup fields "messages_received").bind asU64).getD 0
    messages_sent := ((jsonLookup fields "messages_sent").bind asU64).getD 0
    subscriptions :=
      (((jsonLookup fields "subscriptions").bind asU64).getD 0) % 2 ^ 32 }

/-- Handler invocations of the text-frame arm (`Ok(Message::Text(text))`)
in `ws/client.rs`.  As strings in the `subscribed` channel list are
collected with `filter_map as_str`. -/
def collectStrings : List Json → List String
  | [] => []
  | .str s :: rest => s :: collectStrings rest
  | _ :: rest => collectStrings rest

/-- One handler invocation performed by the text-frame arm. -/
inductive TextAction where
  | heartbeatCall (h : Heartbeat)
  | subscribedLog (channels : List String)
  | errorCall (msg : String)
deriving DecidableEq, Repr

/-- Mirror of the `Ok(Message::Text(text))` arm in `ws/client.rs`, applied
to the already-parsed JSON value (parse failures and non-objects fall
through to a debug log, producing no action). -/
def handleTextFrame (reg : HandlerRegistry) (j : Json) : List TextAction :=
  match j with
  | .obj fields =>
    match jsonLookup fields "type" with
    | some (.str t) =>
        if t = "heartbeat" then
          if reg.heartbeat_registered then [.heartbeatCall (mkHeartbeat fields)]
          else []
        else if t = "subscribed" then
          match jsonLookup fields "channels" with
          | some (.arr cs) => [.subscribedLog (collectStrings cs)]
          | _ => []
        else if t = "error" then
          let m :=
            match jsonLookup fields "message" with
            | some (.str s) => s
            | _ => "Unknown error"
          if reg.error_registered then [.errorCall m] else []
        else []
    | _ => []
  | _ => []

/-- Little-endian byte encoding of `n` on `k` bytes. -/
def encLE : Nat → Nat → Bytes
  | 0, _ => []
  | k + 1, n => n % 256 :: encLE k (n / 256)

/-- 8-byte little-endian encoding (wire `u64`). -/
def encU64 (n : Nat) : Bytes := encLE 8 n

/-- 4-byte little-endian encoding (wire `u32`). -/
def encU32 (n : Nat) : Bytes := encLE 4 n

/-- 2-byte little-endian encoding (wire `u16`). -/
def encU16 (n : Nat) : Bytes := encLE 2 n

/-- 4-byte little-endian two's-complement encoding (wire `i32`). -/
def encI32 (i : Int) : Bytes := encLE 4 (i % 2 ^ 32).toNat

/-- Modelled from the spec: encoding of an "optional order level" (§4.2) —
a 1-byte presence flag (0 = absent, 1 = present) followed, if present, by
`price:u64` then `size:u64`.  The source contains no encoder. -/
def encOptLevel : Option OrderLevel → Bytes
  | none => [0]
  | some l => 1 :: (encU64 l.price ++ encU64 l.size)

/-- Modelled from the spec: a valid Pool Update encoding per the §4.2 field
order — length-prefixed opaque state blob, `sequence:u64`, `slot:u64`,
`write_version:u64`, length-prefixed UTF-8 protocol name, 32-byte pool
address, length-prefixed list of 32-byte mints, length-prefixed `u64`
balances, length-prefixed `i32` decimals, optional best bid, optional best
ask.  The source contains no encoder; tests construct fixtures directly. -/
def encodePoolUpdate (state : Bytes) (seq slot wv : Nat) (name : Bytes)
    (addr : Bytes) (mints : List Bytes) (balances : List Nat)
    (decimals : List Int) (bid ask : Option OrderLevel) : Bytes :=
  encU64 state.length ++ state ++
  encU64 seq ++ encU64 slot ++ encU64 wv ++
  encU64 name.length ++ name ++
  addr ++
  encU64 mints.length ++ mints.flatten ++
  encU64 balances.length ++ (balances.map encU64).flatten ++
  encU64 decimals.length ++ (decimals.map encI32).flatten ++
  encOptLevel bid ++ encOptLevel ask

/-- Modelled from the spec: a Pool Update Batch payload (§4.2) — a `u16`
little-endian count followed by that many sub-records, each prefixed by a
`u32` little-endian byte length.  The source contains no encoder. -/
def encodeBatch (subs : List Bytes) : Bytes :=
  encU16 subs.length ++ (subs.map (fun s => encU32 s.length ++ s)).flatten

/-- Modelled from the library contract of `tokio::sync::mpsc`: a channel
endpoint as seen by a `Sender`; `send` fails (returning the message in
`SendError`) once the `Receiver` has been dropped. -/
structure MpscChannel where
  buffered : List String
  receiver_alive : Bool
deriving DecidableEq, Repr

/-- Modelled from the library contract of `tokio::sync::mpsc::Sender::send`:
enqueues when the receiver is alive, otherwise returns `Err(SendError(msg))`. -/
def mpscSend (ch : MpscChannel) (msg : String) : Except String MpscChannel :=
  if ch.receiver_alive then
    .ok { ch with buffered := ch.buffered ++ [msg] }
  else .error msg

/-- Subscription request, from `SubscribeRequest` in `ws/client.rs`. -/
structure SubscribeRequest where
  request_type : String
  channels : List String
  format : Option String
  protocols : Option (List String)
  pools : Option (List String)
  token_pairs : Option (List (String × String))
deriving DecidableEq, Repr

/-- Mirror of `impl Default for SubscribeRequest` in `ws/client.rs`. -/
def defaultSubscribeRequest : SubscribeRequest :=
  { request_type := "subscribe"
    channels := ["pools", "priority_fees", "blockhash"]
    format := none
    protocols := none
    pools := none
    token_pairs := none }

/-- Render a JSON string literal (field values in this development contain
no characters needing escapes beyond the quote). -/
def jstr (s : String) : String := "\"" ++ s ++ "\""

/-- Render a JSON string array. -/
def jstrList (l : List String) : String :=
  "[" ++ String.intercalate "," (l.map jstr) ++ "]"

/-- Mirror of `serde_json::to_string(&request)`: a single JSON object;
`None` optional fields are skipped (`skip_serializing_if`). -/
def serializeSubscribeRequest (r : SubscribeRequest) : String :=
  "\x7b" ++ jstr "type" ++ ":" ++ jstr r.request_type ++
  "," ++ jstr "channels" ++ ":" ++ jstrList r.channels ++
  (match r.format with
   | some f => "," ++ jstr "format" ++ ":" ++ jstr f
   | none => "") ++
  (match r.protocols with
   | some p => "," ++ jstr "protocols" ++ ":" ++ jstrList p
   | none => "") ++
  (match r.pools with
   | some p => "," ++ jstr "pools" ++ ":" ++ jstrList p
   | none => "") ++
  (match r.token_pairs with
   | some tp =>
     "," ++ jstr "token_pairs" ++ ":" ++
     "[" ++ String.intercalate ","
       (tp.map (fun p => "[" ++ jstr p.1 ++ "," ++ jstr p.2 ++ "]")) ++ "]"
   | none => "") ++
  "\x7d"

/-- The outbound-channel state of a `K256WebSocketClient`. -/
structure ClientModel where
  tx : MpscChannel
deriving DecidableEq, Repr

/-- Mirror of `K256WebSocketClient::new`: `let (tx, _rx) = mpsc::channel(100)`
binds the receiver to `_rx`, which is unused and dropped when `new` returns,
so the channel held in `self.tx` has no live receiver. -/
def clientNew : ClientModel :=
  { tx := { buffered := [], receiver_alive := false } }

/-- Mirror of `K256WebSocketClient::subscribe`: serialize the request with
`serde_json::to_string` (which cannot fail on this struct) and send the
text message on `self.tx`. -/
def subscribe (c : ClientModel) (req : SubscribeRequest) :
    Except String ClientModel :=
  match mpscSend c.tx (serializeSubscribeRequest req) with
  | .ok ch => .ok { c with tx := ch }
  | .error m => .error m

/-- An 88-byte Pool Update fixture: empty state blob, zero sequence, slot
and write version, empty protocol name, all-zero pool address, zero mints,
then a declared balance count of `u64::MAX` (bytes `FF FF FF FF FF FF FF
FF`), which makes the source's `Vec::with_capacity(num_balances as usize)`
panic with a capacity overflow. -/
def c2payload : Bytes :=
  [0, 0, 0, 0, 0, 0, 0, 0,
   0, 0, 0, 0, 0, 0, 0, 0,
   0, 0, 0, 0, 0, 0, 0, 0,
   0, 0, 0, 0, 0, 0, 0, 0,
   0, 0, 0, 0, 0, 0, 0, 0,
   0, 0, 0, 0, 0, 0, 0, 0,
   0, 0, 0, 0, 0, 0, 0, 0,
   0, 0, 0, 0, 0, 0, 0, 0,
   0, 0, 0, 0, 0, 0, 0, 0,
   0, 0, 0, 0, 0, 0, 0, 0,
   255, 255, 255, 255, 255, 255, 255, 255]

/-- A 42-byte Pool Update fixture: empty state blob, zero sequence, slot and
write version, then a declared 2-byte protocol name whose bytes `FF FF` are
not valid UTF-8. -/
def c5payload : Bytes :=
  [0, 0, 0, 0, 0, 0, 0, 0,
   0, 0, 0, 0, 0, 0, 0, 0,
   0, 0, 0, 0, 0, 0, 0, 0,
   0, 0, 0, 0, 0, 0, 0, 0,
   2, 0, 0, 0, 0, 0, 0, 0,
   255, 255]

/-- A 42-byte Fee Market fixture: zero header fields except the state byte
at offset 24, which is 4 — outside the `NetworkState` enumeration. -/
def c6payload : Bytes :=
  [0, 0, 0, 0, 0, 0, 0, 0,
   0, 0, 0, 0, 0, 0, 0, 0,
   0, 0, 0, 0, 0, 0, 0, 0,
   4, 0, 0, 0, 0, 0, 0, 0,
   0, 0, 0, 0, 0, 0, 0, 0,
   0, 0]

/-- A minimal valid Pool Update payload: all fields empty or zero, with an
all-zero pool address. -/
def pu0payload : Bytes :=
  encodePoolUpdate [] 0 0 0 [] (List.replicate 32 0) [] [] [] none none

/-- The record `pu0payload` decodes to. -/
def pu0 : PoolUpdate :=
  { sequence := 0
    slot := 0
    write_version := 0
    protocol_name := []
    pool_address := base58Encode (List.replicate 32 0)
    token_mints := []
    token_balances := []
    token_decimals := []
    best_bid := none
    best_ask := none
    serialized_state := [] }

/-- A minimal valid Blockhash payload: 65 zero bytes. -/
def bh0payload : Bytes := List.replicate 65 0

/-- The record `bh0payload` decodes to. -/
def bh0 : Blockhash :=
  { slot := 0
    timestamp_ms := 0
    blockhash := base58Encode (List.replicate 32 0)
    block_height := 0
    last_valid_block_height := 0
    is_stale := false }

/-- A registry with every handler registered, for concrete dispatch runs. -/
def regAll : HandlerRegistry :=
  { pool_update_registered := true
    fee_market_registered := true
    blockhash_registered := true
    quote_registered := true
    heartbeat_registered := true
    error_registered := true }

/-- Postcondition reasoning for decode computations: the computation never
performs an out-of-bounds access (it may panic on an overflow or capacity
check), and any successful value satisfies `P`. -/
def DecOk {α : Type} (x : DecM α) (P : α → Prop) : Prop :=
  x ≠ DecM.panicWith Panic.outOfBounds ∧ ∀ a, x = DecM.pure a → P a

/-- Error-shape reasoning: every error a computation can return satisfies
`E`. -/
def DecErrOk {α : Type} (x : DecM α) (E : DecodeError → Prop) : Prop :=
  ∀ e, x = DecM.throw e → E e

/-- Errors of the `payloadTooShort` (spec: `TruncatedPayload`) shape. -/
def isPTS (e : DecodeError) : Prop := ∃ x y, e = .payloadTooShort x y

@[simp] theorem DecM.bind_pure {α β : Type} (a : α) (f : α → DecM β) :
    DecM.bind (DecM.pure a) f = f a := rfl

@[simp] theorem DecM.bind_throw {α β : Type} (e : DecodeError) (f : α → DecM β) :
    DecM.bind (DecM.throw e) f = DecM.throw e := rfl

@[simp] theorem DecM.bind_panic {α β : Type} (p : Panic) (f : α → DecM β) :
    DecM.bind (DecM.panicWith p) f = DecM.panicWith p := rfl

@[simp] theorem DecM.pure_ne_panic {α : Type} (a : α) (p : Panic) :
    DecM.pure a ≠ DecM.panicWith p := by
  simp [DecM.pure, DecM.panicWith]

@[simp] theorem DecM.throw_ne_panic {α : Type} (e : DecodeError) (p : Panic) :
    (DecM.throw e : DecM α) ≠ DecM.panicWith p := by
  simp [DecM.throw, DecM.panicWith]

@[simp] theorem DecM.panic_ne_pure {α : Type} (a : α) (p : Panic) :
    DecM.panicWith p ≠ DecM.pure a := by
  simp [DecM.pure, DecM.panicWith]

@[simp] theorem DecM.panic_ne_throw {α : Type} (e : DecodeError) (p : Panic) :
    (DecM.panicWith p : DecM α) ≠ DecM.throw e := by
  simp [DecM.throw, DecM.panicWith]

@[simp] theorem DecM.pure_inj {α : Type} (a b : α) :
    DecM.pure a = DecM.pure b ↔ a = b := by
  simp [DecM.pure]

@[simp] theorem DecM.pure_ne_throw {α : Type} (a : α) (e : DecodeError) :
    DecM.pure a ≠ DecM.throw e := by
  simp [DecM.pure, DecM.throw]

@[simp] theorem DecM.throw_ne_pure {α : Type} (a : α) (e : DecodeError) :
    DecM.throw e ≠ DecM.pure a := by
  simp [DecM.pure, DecM.throw]

@[simp] theorem DecM.throw_inj {α : Type} (e e' : DecodeError) :
    (DecM.throw e : DecM α) = DecM.throw e' ↔ e = e' := by
  simp [DecM.throw]

@[simp] theorem DecM.panic_inj {α : Type} (p p' : Panic) :
    (DecM.panicWith p : DecM α) = DecM.panicWith p' ↔ p = p' := by
  simp [DecM.panicWith]

theorem DecM.cases {α : Type} (x : DecM α) :
    (∃ p, x = DecM.panicWith p) ∨ (∃ e, x = DecM.throw e) ∨
      ∃ a, x = DecM.pure a := by
  rcases x with p | v
  · exact Or.inl ⟨p, rfl⟩
  · rcases v with e | a
    · exact Or.inr (Or.inl ⟨e, rfl⟩)
    · exact Or.inr (Or.inr ⟨a, rfl⟩)

theorem DecM.bind_eq_pure_iff {α β : Type} {x : DecM α} {f : α → DecM β}
    {b : β} :
    DecM.bind x f = DecM.pure b ↔ ∃ a, x = DecM.pure a ∧ f a = DecM.pure b := by
  rcases DecM.cases x with ⟨p, h⟩ | ⟨e, h⟩ | ⟨a, h⟩ <;> subst h <;>
    simp [DecM.bind, DecM.pure, DecM.throw, DecM.panicWith]

theorem decOk_pure {α : Type} {P : α → Prop} {a : α} (h : P a) :
    DecOk (DecM.pure a) P := by
  refine ⟨by simp, fun b hb => ?_⟩
  rw [DecM.pure_inj] at hb
  exact hb ▸ h

theorem decOk_throw {α : Type} {P : α → Prop} {e : DecodeError} :
    DecOk (DecM.throw e) P :=
  ⟨by simp, fun b hb => absurd hb.symm (DecM.pure_ne_throw b e)⟩

theorem decOk_panic {α : Type} {P : α → Prop} {p : Panic}
    (hp : p ≠ Panic.outOfBounds) : DecOk (DecM.panicWith p : DecM α) P :=
  ⟨by simp [hp], fun b hb => absurd hb.symm (DecM.pure_ne_panic b p)⟩

theorem decOk_bind {α β : Type} {x : DecM α} {f : α → DecM β}
    {P : α → Prop} {Q : β → Prop}
    (hx : DecOk x P) (hf : ∀ a, P a → DecOk (f a) Q) :
    DecOk (DecM.bind x f) Q := by
  rcases DecM.cases x with ⟨p, h⟩ | ⟨e, h⟩ | ⟨a, h⟩
  · subst h
    rw [DecM.bind_panic]
    refine decOk_panic ?_
    intro hp
    exact hx.1 (by rw [hp])
  · subst h; simpa using decOk_throw
  · subst h
    rw [DecM.bind_pure]
    exact hf a (hx.2 a rfl)

theorem decErr_pure {α : Type} {E : DecodeError → Prop} (a : α) :
    DecErrOk (DecM.pure a) E :=
  fun e he => absurd he (DecM.pure_ne_throw a e)

theorem decErr_panic {α : Type} {E : DecodeError → Prop} {p : Panic} :
    DecErrOk (DecM.panicWith p : DecM α) E := by
  intro e he
  exact absurd he (DecM.panic_ne_throw e p)

theorem decErr_throw {α : Type} {E : DecodeError → Prop} {e : DecodeError}
    (h : E e) : DecErrOk (DecM.throw e : DecM α) E := by
  intro e' he'
  rw [DecM.throw_inj] at he'
  exact he' ▸ h

theorem decErr_bind {α β : Type} {x : DecM α} {f : α → DecM β}
    {E : DecodeError → Prop}
    (hx : DecErrOk x E) (hf : ∀ a, DecErrOk (f a) E) :
    DecErrOk (DecM.bind x f) E := by
  rcases DecM.cases x with ⟨p, h⟩ | ⟨e, h⟩ | ⟨a, h⟩ <;> subst h
  · exact decErr_panic
  · rw [DecM.bind_throw]; exact decErr_throw (hx e rfl)
  · rw [DecM.bind_pure]; exact hf a

theorem decOk_usizeAdd (a b : Nat) :
    DecOk (usizeAdd a b) (fun s => s = a + b) := by
  unfold usizeAdd
  split
  next => exact decOk_pure rfl
  next => exact decOk_panic (by simp)

theorem decOk_usizeMul (a b : Nat) :
    DecOk (usizeMul a b) (fun s => s = a * b) := by
  unfold usizeMul
  split
  next => exact decOk_pure rfl
  next => exact decOk_panic (by simp)

theorem decOk_withCapacity (n k : Nat) :
    DecOk (withCapacity n k) (fun _ => True) := by
  unfold withCapacity
  split
  next => exact decOk_pure trivial
  next => exact decOk_panic (by simp)

theorem usizeAdd_ok {a b : Nat} (h : a + b < 2 ^ 64) :
    usizeAdd a b = DecM.pure (a + b) := by
  unfold usizeAdd
  rw [if_pos h]

theorem usizeMul_ok {a b : Nat} (h : a * b < 2 ^ 64) :
    usizeMul a b = DecM.pure (a * b) := by
  unfold usizeMul
  rw [if_pos h]

theorem withCapacity_ok {n k : Nat} (h : n * k ≤ isizeMax) :
    withCapacity n k = DecM.pure () := by
  unfold withCapacity
  rw [if_pos h]

theorem withCapacity_ne_throw (n k : Nat) (e : DecodeError) :
    withCapacity n k ≠ DecM.throw e := by
  unfold withCapacity
  split
  next => exact DecM.pure_ne_throw () e
  next => exact DecM.panic_ne_throw e _

theorem extract_append {data junk : Bytes} {a b : Nat}
    (hab : a ≤ b) (hb : b ≤ data.length) :
    extract (data ++ junk) a b = extract data a b := by
  unfold extract
  rw [List.drop_append_of_le_length (by omega),
    List.take_append_of_le_length (by simp [List.length_drop]; omega)]

theorem extract_eq_of_drop {data chunk rest : Bytes} {off : Nat}
    (h : data.drop off = chunk ++ rest) :
    extract data off (off + chunk.length) = chunk := by
  unfold extract
  rw [h, Nat.add_sub_cancel_left, List.take_left]

theorem drop_len_bound {data chunk rest : Bytes} {off : Nat}
    (hoff : off ≤ data.length) (h : data.drop off = chunk ++ rest) :
    off + chunk.length ≤ data.length := by
  have := congrArg List.length h
  simp [List.length_drop, List.length_append] at this
  omega

theorem drop_chunk {data chunk rest : Bytes} {off : Nat}
    (h : data.drop off = chunk ++ rest) :
    data.drop (off + chunk.length) = rest := by
  rw [← List.drop_drop, h, List.drop_left]

theorem drop_le_length {data chunk rest : Bytes} {off : Nat}
    (h : data.drop off = chunk ++ rest) (hne : chunk ≠ []) :
    off ≤ data.length := by
  by_contra hlt
  have h0 : data.drop off = [] := List.drop_eq_nil_of_le (by omega)
  rw [h0] at h
  exact hne (List.append_eq_nil.mp h.symm).1

theorem sliceIdx_eq {data : Bytes} {a b : Nat} (hab : a ≤ b)
    (hb : b ≤ data.length) :
    sliceIdx data a b = DecM.pure (extract data a b) := by
  unfold sliceIdx
  rw [if_pos ⟨hab, hb⟩]

theorem read_u64_eq (data : Bytes) (off : Nat) :
    read_u64 data off =
      if off + 8 ≤ data.length then
        DecM.pure (leNat (extract data off (off + 8)), off + 8)
      else DecM.throw (.payloadTooShort (off + 8) data.length) := by
  unfold read_u64
  by_cases h : off + 8 ≤ data.length
  · rw [if_neg (by omega), sliceIdx_eq (by omega) h, DecM.bind_pure, if_pos h]
  · rw [if_pos (by omega), if_neg h]

theorem read_u32_eq (data : Bytes) (off : Nat) :
    read_u32 data off =
      if off + 4 ≤ data.length then
        DecM.pure (leNat (extract data off (off + 4)), off + 4)
      else DecM.throw (.payloadTooShort (off + 4) data.length) := by
  unfold read_u32
  by_cases h : off + 4 ≤ data.length
  · rw [if_neg (by omega), sliceIdx_eq (by omega) h, DecM.bind_pure, if_pos h]
  · rw [if_pos (by omega), if_neg h]

theorem read_u16_eq (data : Bytes) (off : Nat) :
    read_u16 data off =
      if off + 2 ≤ data.length then
        DecM.pure (leNat (extract data off (off + 2)), off + 2)
      else DecM.throw (.payloadTooShort (off + 2) data.length) := by
  unfold read_u16
  by_cases h : off + 2 ≤ data.length
  · rw [if_neg (by omega), sliceIdx_eq (by omega) h, DecM.bind_pure, if_pos h]
  · rw [if_pos (by omega), if_neg h]

theorem read_i32_eq (data : Bytes) (off : Nat) :
    read_i32 data off =
      if off + 4 ≤ data.length then
        DecM.pure (i32OfNat (leNat (extract data off (off + 4))), off + 4)
      else DecM.throw (.payloadTooShort (off + 4) data.length) := by
  unfold read_i32
  by_cases h : off + 4 ≤ data.length
  · rw [if_neg (by omega), sliceIdx_eq (by omega) h, DecM.bind_pure, if_pos h]
  · rw [if_pos (by omega), if_neg h]

theorem byteAt_eq {data : Bytes} {i : Nat} (h : i < data.length) :
    byteAt data i = DecM.pure (data.getD i 0) := by
  unfold byteAt
  rw [if_pos h]

@[simp] theorem encLE_length (k n : Nat) : (encLE k n).length = k := by
  induction k generalizing n with
  | zero => rfl
  | succ k ih => simp [encLE, ih]

theorem leNat_encLE (k n : Nat) : leNat (encLE k n) = n % 256 ^ k := by
  induction k generalizing n with
  | zero => simp [encLE, leNat, Nat.mod_one]
  | succ k ih =>
    have h : (256 : Nat) ^ (k + 1) = 256 * 256 ^ k := by ring
    simp only [encLE, leNat, List.foldr_cons] at *
    rw [ih (n / 256), h, Nat.mod_mul]

theorem leNat_encU64 {n : Nat} (h : n < 2 ^ 64) : leNat (encU64 n) = n := by
  have : (256 : Nat) ^ 8 = 2 ^ 64 := by norm_num
  rw [encU64, leNat_encLE, this, Nat.mod_eq_of_lt h]

theorem leNat_encU32 {n : Nat} (h : n < 2 ^ 32) : leNat (encU32 n) = n := by
  have : (256 : Nat) ^ 4 = 2 ^ 32 := by norm_num
  rw [encU32, leNat_encLE, this, Nat.mod_eq_of_lt h]

theorem leNat_encU16 {n : Nat} (h : n < 2 ^ 16) : leNat (encU16 n) = n := by
  have : (256 : Nat) ^ 2 = 2 ^ 16 := by norm_num
  rw [encU16, leNat_encLE, this, Nat.mod_eq_of_lt h]

theorem i32OfNat_leNat_encI32 {i : Int} (h1 : -(2 ^ 31) ≤ i)
    (h2 : i < 2 ^ 31) : i32OfNat (leNat (encI32 i)) = i := by
  have hlt : i % 2 ^ 32 < 2 ^ 32 := Int.emod_lt_of_pos i (by norm_num)
  have hge : 0 ≤ i % 2 ^ 32 := Int.emod_nonneg i (by norm_num)
  have hv : ((i % 2 ^ 32).toNat : Int) = i % 2 ^ 32 := Int.toNat_of_nonneg hge
  have hsmall : (i % 2 ^ 32).toNat < 256 ^ 4 := by
    have : (256 : Int) ^ 4 = 2 ^ 32 := by norm_num
    omega
  rw [encI32, leNat_encLE, Nat.mod_eq_of_lt hsmall]
  unfold i32OfNat
  split <;> omega

@[simp] theorem encU64_length (n : Nat) : (encU64 n).length = 8 := by
  simp [encU64]

@[simp] theorem encU32_length (n : Nat) : (encU32 n).length = 4 := by
  simp [encU32]

@[simp] theorem encU16_length (n : Nat) : (encU16 n).length = 2 := by
  simp [encU16]

@[simp] theorem encI32_length (i : Int) : (encI32 i).length = 4 := by
  simp [encI32]

theorem encU64_ne_nil (n : Nat) : encU64 n ≠ [] := by
  intro h
  have := congrArg List.length h
  simp at this

theorem read_u64_drop {data rest : Bytes} {off n : Nat}
    (h : data.drop off = encU64 n ++ rest) (hn : n < 2 ^ 64) :
    read_u64 data off = DecM.pure (n, off + 8) := by
  have hoff : off ≤ data.length := drop_le_length h (encU64_ne_nil n)
  have hb : off + 8 ≤ data.length := by
    have := drop_len_bound hoff h
    simpa using this
  have hex : extract data off (off + 8) = encU64 n := by
    have := extract_eq_of_drop h
    simpa using this
  rw [read_u64_eq, if_pos hb, hex, leNat_encU64 hn]

theorem read_u32_drop {data rest : Bytes} {off n : Nat}
    (h : data.drop off = encU32 n ++ rest) (hn : n < 2 ^ 32) :
    read_u32 data off = DecM.pure (n, off + 4) := by
  have hoff : off ≤ data.length := by
    refine drop_le_length h ?_
    intro h'
    have := congrArg List.length h'
    simp at this
  have hb : off + 4 ≤ data.length := by
    have := drop_len_bound hoff h
    simpa using this
  have hex : extract data off (off + 4) = encU32 n := by
    have := extract_eq_of_drop h
    simpa using this
  rw [read_u32_eq, if_pos hb, hex, leNat_encU32 hn]

theorem read_u16_drop {data rest : Bytes} {off n : Nat}
    (h : data.drop off = encU16 n ++ rest) (hn : n < 2 ^ 16) :
    read_u16 data off = DecM.pure (n, off + 2) := by
  have hoff : off ≤ data.length := by
    refine drop_le_length h ?_
    intro h'
    have := congrArg List.length h'
    simp at this
  have hb : off + 2 ≤ data.length := by
    have := drop_len_bound hoff h
    simpa using this
  have hex : extract data off (off + 2) = encU16 n := by
    have := extract_eq_of_drop h
    simpa using this
  rw [read_u16_eq, if_pos hb, hex, leNat_encU16 hn]

theorem read_i32_drop {data rest : Bytes} {off : Nat} {i : Int}
    (h : data.drop off = encI32 i ++ rest) (h1 : -(2 ^ 31) ≤ i)
    (h2 : i < 2 ^ 31) :
    read_i32 data off = DecM.pure (i, off + 4) := by
  have hoff : off ≤ data.length := by
    refine drop_le_length h ?_
    intro h'
    have := congrArg List.length h'
    simp at this
  have hb : off + 4 ≤ data.length := by
    have := drop_len_bound hoff h
    simpa using this
  have hex : extract data off (off + 4) = encI32 i := by
    have := extract_eq_of_drop h
    simpa using this
  rw [read_i32_eq, if_pos hb, hex, i32OfNat_leNat_encI32 h1 h2]

theorem sliceIdx_drop {data chunk rest : Bytes} {off k : Nat}
    (h : data.drop off = chunk ++ rest) (hoff : off ≤ data.length)
    (hk : chunk.length = k) :
    sliceIdx data off (off + k) = DecM.pure chunk := by
  have hb : off + k ≤ data.length := by
    have := drop_len_bound hoff h
    omega
  have hex : extract data off (off + k) = chunk := by
    have := extract_eq_of_drop h
    rwa [hk] at this
  rw [sliceIdx_eq (by omega) hb, hex]

theorem byteAt_drop {data rest : Bytes} {off b : Nat}
    (h : data.drop off = b :: rest) :
    byteAt data off = DecM.pure b ∧ off < data.length := by
  have hlen : data.length - off = rest.length + 1 := by
    have := congrArg List.length h
    simpa [List.length_drop] using this
  have hoff : off < data.length := by
    by_contra hc
    have h0 : data.drop off = [] := List.drop_eq_nil_of_le (by omega)
    rw [h0] at h
    exact List.cons_ne_nil b rest h.symm
  refine ⟨?_, hoff⟩
  have hget : data[off]? = some b := by
    have h0 : (data.drop off)[0]? = some b := by rw [h]; simp
    rwa [List.getElem?_drop, Nat.add_zero] at h0
  rw [byteAt_eq hoff, List.getD_eq_getElem?_getD, hget]
  rfl

theorem DecM.bind_eq_throw_iff {α β : Type} {x : DecM α} {f : α → DecM β}
    {e : DecodeError} :
    DecM.bind x f = DecM.throw e ↔
      x = DecM.throw e ∨ ∃ a, x = DecM.pure a ∧ f a = DecM.throw e := by
  rcases DecM.cases x with ⟨p, h⟩ | ⟨e', h⟩ | ⟨a, h⟩ <;> subst h <;>
    simp [DecM.bind, DecM.pure, DecM.throw, DecM.panicWith]

theorem read_u64_ok {data : Bytes} {off : Nat} (h : off + 8 ≤ data.length) :
    read_u64 data off =
      DecM.pure (leNat (extract data off (off + 8)), off + 8) := by
  rw [read_u64_eq, if_pos h]

theorem read_u32_ok {data : Bytes} {off : Nat} (h : off + 4 ≤ data.length) :
    read_u32 data off =
      DecM.pure (leNat (extract data off (off + 4)), off + 4) := by
  rw [read_u32_eq, if_pos h]

theorem read_u16_ok {data : Bytes} {off : Nat} (h : off + 2 ≤ data.length) :
    read_u16 data off =
      DecM.pure (leNat (extract data off (off + 2)), off + 2) := by
  rw [read_u16_eq, if_pos h]

theorem read_i32_ok {data : Bytes} {off : Nat} (h : off + 4 ≤ data.length) :
    read_i32 data off =
      DecM.pure (i32OfNat (leNat (extract data off (off + 4))), off + 4) := by
  rw [read_i32_eq, if_pos h]

theorem decErr_read_u64 (data : Bytes) (off : Nat) :
    DecErrOk (read_u64 data off) isPTS := by
  rw [read_u64_eq]
  split
  next => exact decErr_pure _
  next => exact decErr_throw ⟨_, _, rfl⟩

theorem decErr_read_u32 (data : Bytes) (off : Nat) :
    DecErrOk (read_u32 data off) isPTS := by
  rw [read_u32_eq]
  split
  next => exact decErr_pure _
  next => exact decErr_throw ⟨_, _, rfl⟩

theorem decErr_sliceIdx (data : Bytes) (a b : Nat) :
    DecErrOk (sliceIdx data a b) isPTS := by
  unfold sliceIdx
  split
  next => exact decErr_pure _
  next => exact decErr_panic

theorem decErr_readAccounts (data : Bytes) :
    ∀ (n off : Nat), DecErrOk (readAccounts data n off) isPTS := by
  intro n
  induction n with
  | zero =>
    intro off
    unfold readAccounts
    exact decErr_pure _
  | succ n ih =>
    intro off
    unfold readAccounts
    split
    next => exact decErr_throw ⟨_, _, rfl⟩
    next =>
    refine decErr_bind (decErr_sliceIdx data off (off + 32)) (fun pk => ?_)
    refine decErr_bind (decErr_read_u32 data (off + 32)) (fun tt => ?_)
    refine decErr_bind (decErr_read_u32 data tt.2) (fun as_ => ?_)
    refine decErr_bind (decErr_read_u64 data as_.2) (fun cu => ?_)
    refine decErr_bind (decErr_sliceIdx data cu.2 (cu.2 + 4)) (fun ub => ?_)
    refine decErr_bind (decErr_read_u64 data (cu.2 + 4)) (fun p25 => ?_)
    refine decErr_bind (decErr_read_u64 data p25.2) (fun p50 => ?_)
    refine decErr_bind (decErr_read_u64 data p50.2) (fun p75 => ?_)
    refine decErr_bind (decErr_read_u64 data p75.2) (fun p90 => ?_)
    refine decErr_bind (decErr_read_u64 data p90.2) (fun mn => ?_)
    refine decErr_bind (ih mn.2) (fun rest => ?_)
    exact decErr_pure _

theorem decOk_mono {α : Type} {x : DecM α} {P Q : α → Prop}
    (hx : DecOk x P) (h : ∀ a, P a → Q a) : DecOk x Q :=
  ⟨hx.1, fun a ha => h a (hx.2 a ha)⟩

theorem decOk_read_u64 (data : Bytes) (off : Nat) :
    DecOk (read_u64 data off) (fun r => r.2 = off + 8 ∧ r.2 ≤ data.length) := by
  rw [read_u64_eq]
  split
  next h => exact decOk_pure ⟨rfl, by omega⟩
  next h => exact decOk_throw

theorem decOk_read_u32 (data : Bytes) (off : Nat) :
    DecOk (read_u32 data off) (fun r => r.2 = off + 4 ∧ r.2 ≤ data.length) := by
  rw [read_u32_eq]
  split
  next h => exact decOk_pure ⟨rfl, by omega⟩
  next h => exact decOk_throw

theorem decOk_read_u16 (data : Bytes) (off : Nat) :
    DecOk (read_u16 data off) (fun r => r.2 = off + 2 ∧ r.2 ≤ data.length) := by
  rw [read_u16_eq]
  split
  next h => exact decOk_pure ⟨rfl, by omega⟩
  next h => exact decOk_throw

theorem decOk_read_i32 (data : Bytes) (off : Nat) :
    DecOk (read_i32 data off) (fun r => r.2 = off + 4 ∧ r.2 ≤ data.length) := by
  rw [read_i32_eq]
  split
  next h => exact decOk_pure ⟨rfl, by omega⟩
  next h => exact decOk_throw

theorem decOk_sliceIdx {data : Bytes} {a b : Nat} (hab : a ≤ b)
    (hb : b ≤ data.length) :
    DecOk (sliceIdx data a b) (fun _ => True) := by
  rw [sliceIdx_eq hab hb]
  exact decOk_pure trivial

theorem decOk_byteAt {data : Bytes} {i : Nat} (h : i < data.length) :
    DecOk (byteAt data i) (fun _ => True) := by
  rw [byteAt_eq h]
  exact decOk_pure trivial

theorem decOk_optLevel (data : Bytes) (off : Nat) :
    DecOk (decode_optional_order_level data off)
      (fun r => off + 1 ≤ r.2 ∧ r.2 ≤ data.length) := by
  unfold decode_optional_order_level
  split
  next h => exact decOk_throw
  next h =>
    refine decOk_bind (decOk_byteAt (by omega)) (fun b _ => ?_)
    split
    · exact decOk_pure ⟨by omega, by omega⟩
    · refine decOk_bind (decOk_read_u64 data (off + 1)) (fun pr hpr => ?_)
      refine decOk_bind (decOk_read_u64 data pr.2) (fun sz hsz => ?_)
      exact decOk_pure ⟨by omega, by omega⟩

theorem decOk_readMints (data : Bytes) :
    ∀ (n off : Nat), off + n * 32 ≤ data.length →
      DecOk (readMints data n off)
        (fun r => r.2 = off + n * 32 ∧ r.1.length = n) := by
  intro n
  induction n with
  | zero =>
    intro off h
    unfold readMints
    exact decOk_pure ⟨by omega, rfl⟩
  | succ n ih =>
    intro off h
    unfold readMints
    have h32 : off + 32 ≤ data.length := by
      have : (n + 1) * 32 = n * 32 + 32 := by ring
      omega
    refine decOk_bind (decOk_sliceIdx (by omega) h32) (fun chunk _ => ?_)
    have hrec : off + 32 + n * 32 ≤ data.length := by
      have : (n + 1) * 32 = n * 32 + 32 := by ring
      omega
    refine decOk_bind (ih (off + 32) hrec) (fun rest hrest => ?_)
    refine decOk_pure ⟨?_, ?_⟩
    · have : (n + 1) * 32 = n * 32 + 32 := by ring
      omega
    · simp [hrest.2]

theorem decOk_readBalances (data : Bytes) :
    ∀ (n off : Nat),
      DecOk (readBalances data n off)
        (fun r => r.2 = off + n * 8 ∧ r.1.length = n ∧
          (n ≠ 0 → r.2 ≤ data.length)) := by
  intro n
  induction n with
  | zero =>
    intro off
    unfold readBalances
    exact decOk_pure ⟨by omega, rfl, fun h => absurd rfl h⟩
  | succ n ih =>
    intro off
    unfold readBalances
    refine decOk_bind (decOk_read_u64 data off) (fun v hv => ?_)
    refine decOk_bind (ih v.2) (fun rest hrest => ?_)
    refine decOk_pure ⟨?_, ?_, fun _ => ?_⟩
    · have : (n + 1) * 8 = n * 8 + 8 := by ring
      omega
    · simp [hrest.2.1]
    · by_cases hn : n = 0
      · subst hn; omega
      · exact hrest.2.2 hn

theorem decOk_readDecimals (data : Bytes) :
    ∀ (n off : Nat),
      DecOk (readDecimals data n off)
        (fun r => r.2 = off + n * 4 ∧ r.1.length = n ∧
          (n ≠ 0 → r.2 ≤ data.length)) := by
  intro n
  induction n with
  | zero =>
    intro off
    unfold readDecimals
    exact decOk_pure ⟨by omega, rfl, fun h => absurd rfl h⟩
  | succ n ih =>
    intro off
    unfold readDecimals
    refine decOk_bind (decOk_read_i32 data off) (fun v hv => ?_)
    refine decOk_bind (ih v.2) (fun rest hrest => ?_)
    refine decOk_pure ⟨?_, ?_, fun _ => ?_⟩
    · have : (n + 1) * 4 = n * 4 + 4 := by ring
      omega
    · simp [hrest.2.1]
    · by_cases hn : n = 0
      · subst hn; omega
      · exact hrest.2.2 hn

theorem decOk_decode_pool_update (data : Bytes) :
    DecOk (decode_pool_update data) (fun _ => 98 ≤ data.length) := by
  unfold decode_pool_update
  refine decOk_bind (decOk_read_u64 data 0) (fun sl hsl => ?_)
  refine decOk_bind (decOk_usizeAdd sl.2 sl.1) (fun stEnd hstEnd => ?_)
  split
  next hg1 => exact decOk_throw
  next hg1 =>
  refine decOk_bind (decOk_sliceIdx (by omega) (by omega)) (fun st _ => ?_)
  refine decOk_bind (decOk_read_u64 data stEnd) (fun seq hseq => ?_)
  refine decOk_bind (decOk_read_u64 data seq.2) (fun slot hslot => ?_)
  refine decOk_bind (decOk_read_u64 data slot.2) (fun wv hwv => ?_)
  refine decOk_bind (decOk_read_u64 data wv.2) (fun nl hnl => ?_)
  refine decOk_bind (decOk_usizeAdd nl.2 nl.1) (fun nameEnd hnameEnd => ?_)
  split
  next hg2 => exact decOk_throw
  next hg2 =>
  refine decOk_bind (decOk_sliceIdx (by omega) (by omega)) (fun nb _ => ?_)
  split
  next => exact decOk_throw
  next =>
  split
  next hg3 => exact decOk_throw
  next hg3 =>
  refine decOk_bind (decOk_sliceIdx (by omega) (by omega)) (fun addr _ => ?_)
  refine decOk_bind (decOk_read_u64 data (nameEnd + 32)) (fun nm hnm => ?_)
  refine decOk_bind (decOk_usizeMul nm.1 32) (fun mintsBytes hmb => ?_)
  refine decOk_bind (decOk_usizeAdd nm.2 mintsBytes) (fun mintsEnd hme => ?_)
  split
  next hg4 => exact decOk_throw
  next hg4 =>
  refine decOk_bind (decOk_withCapacity nm.1 24) (fun _ _ => ?_)
  refine decOk_bind (decOk_readMints data nm.1 nm.2 (by omega))
    (fun mints hmints => ?_)
  refine decOk_bind (decOk_read_u64 data mints.2) (fun nbal hnbal => ?_)
  refine decOk_bind (decOk_withCapacity nbal.1 8) (fun _ _ => ?_)
  refine decOk_bind (decOk_readBalances data nbal.1 nbal.2)
    (fun balances hbalances => ?_)
  refine decOk_bind (decOk_read_u64 data balances.2) (fun nd hnd => ?_)
  refine decOk_bind (decOk_withCapacity nd.1 4) (fun _ _ => ?_)
  refine decOk_bind (decOk_readDecimals data nd.1 nd.2)
    (fun decimals hdecimals => ?_)
  refine decOk_bind (decOk_optLevel data decimals.2) (fun bid hbid => ?_)
  refine decOk_bind (decOk_optLevel data bid.2) (fun ask hask => ?_)
  refine decOk_pure ?_
  omega

theorem decOk_readAccounts (data : Bytes) :
    ∀ (n off : Nat), DecOk (readAccounts data n off) (fun _ => True) := by
  intro n
  induction n with
  | zero =>
    intro off
    unfold readAccounts
    exact decOk_pure trivial
  | succ n ih =>
    intro off
    unfold readAccounts
    split
    next => exact decOk_throw
    next hg =>
    refine decOk_bind (decOk_sliceIdx (by omega) (by omega)) (fun pk _ => ?_)
    refine decOk_bind (decOk_read_u32 data (off + 32)) (fun tt htt => ?_)
    refine decOk_bind (decOk_read_u32 data tt.2) (fun as_ has => ?_)
    refine decOk_bind (decOk_read_u64 data as_.2) (fun cu hcu => ?_)
    refine decOk_bind (decOk_sliceIdx (by omega) (by omega)) (fun ub _ => ?_)
    refine decOk_bind (decOk_read_u64 data (cu.2 + 4)) (fun p25 h25 => ?_)
    refine decOk_bind (decOk_read_u64 data p25.2) (fun p50 h50 => ?_)
    refine decOk_bind (decOk_read_u64 data p50.2) (fun p75 h75 => ?_)
    refine decOk_bind (decOk_read_u64 data p75.2) (fun p90 h90 => ?_)
    refine decOk_bind (decOk_read_u64 data p90.2) (fun mn hmn => ?_)
    refine decOk_bind (ih mn.2) (fun rest _ => ?_)
    exact decOk_pure trivial

theorem decOk_decode_fee_market (data : Bytes) :
    DecOk (decode_fee_market data) (fun _ => True) := by
  unfold decode_fee_market
  split
  next => exact decOk_throw
  next hg =>
  refine decOk_bind (decOk_read_u64 data 0) (fun slot hslot => ?_)
  refine decOk_bind (decOk_read_u64 data slot.2) (fun ts hts => ?_)
  refine decOk_bind (decOk_read_u64 data ts.2) (fun rec_ hrec => ?_)
  refine decOk_bind (decOk_byteAt (show rec_.2 < data.length by omega))
    (fun sb _ => ?_)
  have hstate : DecOk
      (match NetworkState.tryFromByte sb with
       | .ok s => DecM.pure s
       | .error b => DecM.throw (.invalidNetworkState b)) (fun _ => True) := by
    split
    next => exact decOk_pure trivial
    next => exact decOk_throw
  refine decOk_bind hstate (fun state _ => ?_)
  · refine decOk_bind (decOk_byteAt (show rec_.2 + 1 < data.length by omega))
      (fun isb _ => ?_)
    refine decOk_bind (decOk_sliceIdx (by omega) (by omega)) (fun ub _ => ?_)
    refine decOk_bind (decOk_read_u32 data (rec_.2 + 6)) (fun bw hbw => ?_)
    refine decOk_bind (decOk_read_u64 data bw.2) (fun ac hac => ?_)
    refine decOk_bind (decOk_withCapacity ac.1 88) (fun _ _ => ?_)
    refine decOk_bind (decOk_readAccounts data ac.1 ac.2) (fun accounts _ => ?_)
    exact decOk_pure trivial

theorem decOk_decode_blockhash (data : Bytes) :
    DecOk (decode_blockhash data) (fun _ => True) := by
  unfold decode_blockhash
  split
  next => exact decOk_throw
  next hg =>
  refine decOk_bind (decOk_read_u64 data 0) (fun slot hslot => ?_)
  refine decOk_bind (decOk_read_u64 data slot.2) (fun ts hts => ?_)
  refine decOk_bind (decOk_sliceIdx (by omega) (by omega)) (fun hb _ => ?_)
  refine decOk_bind (decOk_read_u64 data (ts.2 + 32)) (fun bh hbh => ?_)
  refine decOk_bind (decOk_read_u64 data bh.2) (fun lv hlv => ?_)
  refine decOk_bind (decOk_byteAt (show lv.2 < data.length by omega))
    (fun sb _ => ?_)
  exact decOk_pure trivial

theorem decOk_decodeBatchSubs (data : Bytes) :
    ∀ (n off : Nat), DecOk (decodeBatchSubs data n off) (fun _ => True) := by
  intro n
  induction n with
  | zero =>
    intro off
    unfold decodeBatchSubs
    exact decOk_pure trivial
  | succ n ih =>
    intro off
    unfold decodeBatchSubs
    refine decOk_bind (decOk_read_u32 data off) (fun ln hln => ?_)
    refine decOk_bind (decOk_usizeAdd ln.2 ln.1) (fun subEnd hse => ?_)
    split
    next => exact decOk_throw
    next hg =>
    refine decOk_bind (decOk_sliceIdx (by omega) (by omega)) (fun sub _ => ?_)
    refine decOk_bind
      (decOk_mono (decOk_decode_pool_update sub) (fun _ _ => trivial))
      (fun u _ => ?_)
    refine decOk_bind (ih subEnd) (fun rest _ => ?_)
    exact decOk_pure trivial

theorem decOk_decode_pool_update_batch (data : Bytes) :
    DecOk (decode_pool_update_batch data) (fun _ => True) := by
  unfold decode_pool_update_batch
  refine decOk_bind (decOk_read_u16 data 0) (fun cnt hcnt => ?_)
  refine decOk_bind (decOk_withCapacity cnt.1 216) (fun _ _ => ?_)
  refine decOk_bind (decOk_decodeBatchSubs data cnt.1 cnt.2) (fun us _ => ?_)
  exact decOk_pure trivial

theorem decOk_decode_message (msg_type : Nat) (payload : Bytes) :
    DecOk (decode_message msg_type payload) (fun _ => True) := by
  unfold decode_message
  have hmt : DecOk
      (match MessageType.tryFromByte msg_type with
       | .ok t => DecM.pure t
       | .error b => DecM.throw (.invalidMessageType b)) (fun _ => True) := by
    split
    next => exact decOk_pure trivial
    next => exact decOk_throw
  refine decOk_bind hmt (fun mt _ => ?_)
  · split
    next =>
      exact decOk_bind
        (decOk_mono (decOk_decode_pool_update payload) (fun _ _ => trivial))
        (fun u _ => decOk_pure trivial)
    next =>
      exact decOk_bind (decOk_decode_pool_update_batch payload)
        (fun us _ => decOk_pure trivial)
    next =>
      exact decOk_bind (decOk_decode_fee_market payload)
        (fun f _ => decOk_pure trivial)
    next =>
      exact decOk_bind (decOk_decode_blockhash payload)
        (fun b _ => decOk_pure trivial)
    next =>
      split
      next => exact decOk_pure trivial
      next => exact decOk_throw
    next => exact decOk_pure trivial
    next => exact decOk_pure trivial

/-- C2 (counterexample): `decode_message` does NOT return a decoded message
or a `DecodeError` for every payload: on the 88-byte `c2payload`, whose
declared balance count is `u64::MAX`, the source reaches
`Vec::with_capacity(num_balances as usize)` — which precedes any bounds
check on the balances — and panics with a capacity overflow, in every build
profile. -/
theorem decode_message_capacity_overflow :
    decode_message 0x01 c2payload = DecM.panicWith .capacityOverflow ∧
    (∀ e, decode_message 0x01 c2payload ≠ DecM.throw e) ∧
    ∀ r, decode_message 0x01 c2payload ≠ DecM.pure r := by
  refine ⟨by decide, fun e he => ?_, fun r hr => ?_⟩
  · rw [show decode_message 0x01 c2payload =
        DecM.panicWith .capacityOverflow by decide] at he
    exact DecM.panic_ne_throw e _ he
  · rw [show decode_message 0x01 c2payload =
        DecM.panicWith .capacityOverflow by decide] at hr
    exact DecM.panic_ne_pure r _ hr

/-- C2 (amended): for every discriminant byte and every payload,
`decode_message` terminates with a decoded message, a `DecodeError`, or a
panic, and it never reads past the end of the payload: every slice or byte
access it performs is in bounds (the out-of-bounds panic marker is
unreachable), so the only panics are the overflow-checked `usize`
arithmetic on attacker-controlled lengths and the `Vec::with_capacity`
capacity check on attacker-controlled counts. -/
theorem decode_message_no_oob (msg_type : Nat) (payload : Bytes) :
    decode_message msg_type payload ≠ DecM.panicWith Panic.outOfBounds ∧
    ∀ p, decode_message msg_type payload = DecM.panicWith p →
      p = Panic.arithOverflow ∨ p = Panic.capacityOverflow := by
  have h := (decOk_decode_message msg_type payload).1
  refine ⟨h, fun p hp => ?_⟩
  cases p
  · exact absurd hp h
  · exact Or.inl rfl
  · exact Or.inr rfl

/-- C1 (counterexample): the discriminant byte `0x7F` is unmapped in the
`MessageType` table, and `decode_message` does NOT treat it as a no-op: it
returns the error `InvalidMessageType(0x7F)` rather than `Ok(None)`. -/
theorem decode_message_unmapped_is_error :
    decode_message 0x7F [] = DecM.throw (.invalidMessageType 0x7F) ∧
    decode_message 0x7F [] ≠ DecM.pure none := by
  refine ⟨by decide, by decide⟩

theorem tryFromByte_classify (t : Nat)
    (h : t ∉ ([0x01, 0x0E, 0x05, 0x06, 0xFF] : List Nat)) :
    MessageType.tryFromByte t = .error t ∨
    ∃ mt, MessageType.tryFromByte t = .ok mt ∧
      mt ∈ ([.Subscribe, .Subscribed, .Unsubscribe, .Quote, .QuoteSubscribed,
             .SubscribeQuote, .UnsubscribeQuote, .Ping, .Pong, .Heartbeat,
             .BlockStats, .SubscribePrice, .PriceUpdate, .PriceBatch,
             .PriceSnapshot, .UnsubscribePrice] : List MessageType) := by
  simp only [List.mem_cons, List.not_mem_nil, or_false, not_or] at h
  obtain ⟨h1, h2, h3, h4, h5⟩ := h
  by_cases ht : t < 0x15
  · interval_cases t <;>
      first
        | exact absurd rfl h1
        | exact absurd rfl h2
        | exact absurd rfl h3
        | exact absurd rfl h4
        | exact Or.inl rfl
        | exact Or.inr ⟨_, rfl, by decide⟩
  · left
    unfold MessageType.tryFromByte
    repeat rw [if_neg (by omega)]

theorem decode_message_ok_unhandled (t : Nat) (payload : Bytes)
    (mt : MessageType) (h' : MessageType.tryFromByte t = .ok mt)
    (hmem : mt ∈ ([.Subscribe, .Subscribed, .Unsubscribe, .Quote,
             .QuoteSubscribed, .SubscribeQuote, .UnsubscribeQuote, .Ping,
             .Pong, .Heartbeat, .BlockStats, .SubscribePrice, .PriceUpdate,
             .PriceBatch, .PriceSnapshot,
             .UnsubscribePrice] : List MessageType)) :
    decode_message t payload = DecM.pure none := by
  fin_cases hmem <;> (simp only [decode_message, h']; rfl)

/-- C1 (amended): for a discriminant byte outside the decoded record kinds
(PoolUpdate 0x01, PoolUpdateBatch 0x0E, PriorityFees 0x05, Blockhash 0x06,
Error 0xFF), `decode_message` returns `Ok(None)` when the byte is mapped in
the discriminant table, and the error `InvalidMessageType` when it is
unmapped (e.g. 0x7F); in both cases the receive loop invokes no handler. -/
theorem decode_message_nondecoded_discriminant (t : Nat) (payload : Bytes)
    (reg : HandlerRegistry)
    (h : t ∉ ([0x01, 0x0E, 0x05, 0x06, 0xFF] : List Nat)) :
    (decode_message t payload =
      if (MessageType.tryFromByte t).isOk then DecM.pure none
      else DecM.throw (.invalidMessageType t)) ∧
    handleBinaryFrame reg (t :: payload) = some [] := by
  rcases tryFromByte_classify t h with hcase | ⟨mt, hok, hmem⟩
  · have hdec : decode_message t payload = DecM.throw (.invalidMessageType t) := by
      simp only [decode_message, hcase]
      rfl
    refine ⟨?_, ?_⟩
    · rw [hdec, hcase]
      rfl
    · simp only [handleBinaryFrame, hdec]
      rfl
  · have hdec : decode_message t payload = DecM.pure none :=
      decode_message_ok_unhandled t payload mt hok hmem
    refine ⟨?_, ?_⟩
    · rw [hdec, hok]
      rfl
    · simp only [handleBinaryFrame, hdec]
      rfl

/-- Witness for C1 (amended) at the unmapped discriminant byte 0x7F with an
empty payload and all handlers registered. -/
theorem decode_message_nondecoded_discriminant_witness :
    (decode_message 0x7F [] =
      if (MessageType.tryFromByte 0x7F).isOk then DecM.pure none
      else DecM.throw (.invalidMessageType 0x7F)) ∧
    handleBinaryFrame regAll (0x7F :: []) = some [] :=
  decode_message_nondecoded_discriminant 0x7F [] regAll (by decide)

/-- C5 (counterexample): `c5payload` is 42 bytes long — strictly below the
98-byte minimum of any successfully decodable Pool Update — yet decoding it
fails with `InvalidUtf8`, not with `TruncatedPayload`/`PayloadTooShort`. -/
theorem decode_pool_update_short_not_truncated :
    decode_pool_update c5payload = DecM.throw DecodeError.invalidUtf8 ∧
    c5payload.length = 42 ∧
    ∀ x y, decode_pool_update c5payload ≠
      DecM.throw (.payloadTooShort x y) := by
  refine ⟨by decide, by decide, ?_⟩
  intro x y hc
  rw [show decode_pool_update c5payload = DecM.throw DecodeError.invalidUtf8
      by decide] at hc
  simp at hc

/-- C5 (amended): for Blockhash (65 bytes) and Fee Market (42 bytes),
decoding a payload shorter than the minimum always fails with
`TruncatedPayload` (`PayloadTooShort`) and never reads out of bounds.  For
Pool Update (98 bytes, the minimum over all contents) decoding a shorter
payload never succeeds and never reads out of bounds, but the outcome may
be `TruncatedPayload`, `InvalidUtf8`, or — for huge declared lengths or
counts — an overflow or capacity panic. -/
theorem decode_below_minimum_fails (data : Bytes) :
    (data.length < 65 →
      decode_blockhash data = DecM.throw (.payloadTooShort 65 data.length)) ∧
    (data.length < 42 →
      decode_fee_market data = DecM.throw (.payloadTooShort 42 data.length)) ∧
    (data.length < 98 →
      (∀ u, decode_pool_update data ≠ DecM.pure u) ∧
      decode_pool_update data ≠ DecM.panicWith Panic.outOfBounds) := by
  refine ⟨fun h => ?_, fun h => ?_, fun h => ?_⟩
  · unfold decode_blockhash
    rw [if_pos h]
  · unfold decode_fee_market
    rw [if_pos h]
  · have hok := decOk_decode_pool_update data
    have hnp : ∀ u, decode_pool_update data ≠ DecM.pure u := by
      intro u hu
      have := hok.2 u hu
      omega
    exact ⟨hnp, hok.1⟩

/-- Witness for C5 (amended) at the empty payload. -/
theorem decode_below_minimum_fails_witness :
    decode_blockhash [] = DecM.throw (.payloadTooShort 65 0) ∧
    decode_fee_market [] = DecM.throw (.payloadTooShort 42 0) ∧
    (∀ u, decode_pool_update [] ≠ DecM.pure u) ∧
    decode_pool_update [] ≠ DecM.panicWith Panic.outOfBounds := by
  refine ⟨?_, ?_, ?_⟩
  · have := (decode_below_minimum_fails []).1 (by decide)
    simpa using this
  · have := (decode_below_minimum_fails []).2.1 (by decide)
    simpa using this
  · exact (decode_below_minimum_fails []).2.2 (by decide)

theorem bind_match_networkState (sb : Nat) (f : NetworkState → DecM FeeMarket) :
    DecM.bind
      (match NetworkState.tryFromByte sb with
       | .ok s => DecM.pure s
       | .error b => DecM.throw (.invalidNetworkState b)) f =
    match NetworkState.tryFromByte sb with
    | .ok s => f s
    | .error b => DecM.throw (.invalidNetworkState b) := by
  cases NetworkState.tryFromByte sb <;> simp

/-- C6: for every Fee Market payload at least as long as the 42-byte fixed
header, decoding fails with `InvalidEnumValue` (`InvalidNetworkState`)
exactly when the state byte at offset 24 is 4 or higher, and the state
bytes 0, 1, 2, 3 map exactly to Low, Normal, High, Extreme. -/
theorem decode_fee_market_state_byte (data : Bytes) (h : 42 ≤ data.length) :
    (NetworkState.tryFromByte 0 = .ok .Low ∧
     NetworkState.tryFromByte 1 = .ok .Normal ∧
     NetworkState.tryFromByte 2 = .ok .High ∧
     NetworkState.tryFromByte 3 = .ok .Extreme ∧
     ∀ v, 4 ≤ v → NetworkState.tryFromByte v = .error v) ∧
    (4 ≤ data.getD 24 0 →
      decode_fee_market data =
        DecM.throw (.invalidNetworkState (data.getD 24 0))) ∧
    (data.getD 24 0 < 4 →
      ∀ b, decode_fee_market data ≠
        DecM.throw (.invalidNetworkState b)) := by
  have hmap : ∀ v, 4 ≤ v → NetworkState.tryFromByte v = .error v := by
    intro v hv
    unfold NetworkState.tryFromByte
    rw [if_neg (by omega), if_neg (by omega), if_neg (by omega),
      if_neg (by omega)]
  have hwalk : decode_fee_market data =
      match NetworkState.tryFromByte (data.getD 24 0) with
      | .ok s =>
        DecM.bind (byteAt data 25) fun isb =>
        DecM.bind (sliceIdx data 26 30) fun ub =>
        DecM.bind (read_u32 data 30) fun bw =>
        DecM.bind (read_u64 data bw.2) fun ac =>
        DecM.bind (withCapacity ac.1 88) fun _ =>
        DecM.bind (readAccounts data ac.1 ac.2) fun accounts =>
        DecM.pure
          { slot := leNat (extract data 0 8)
            timestamp_ms := leNat (extract data 8 16)
            recommended := leNat (extract data 16 24)
            state := s
            is_stale := isb != 0
            block_utilization_bits := leNat ub
            blocks_in_window := bw.1
            accounts := accounts.1 }
      | .error b => DecM.throw (.invalidNetworkState b) := by
    unfold decode_fee_market
    rw [if_neg (by omega), read_u64_ok (by omega)]
    simp only [DecM.bind_pure]
    rw [read_u64_ok (by omega)]
    simp only [DecM.bind_pure]
    rw [read_u64_ok (by omega)]
    simp only [DecM.bind_pure]
    rw [byteAt_eq (by omega : (24 : Nat) < data.length)]
    simp only [DecM.bind_pure]
    rw [bind_match_networkState]
  refine ⟨⟨by decide, by decide, by decide, by decide, hmap⟩,
    fun hb => ?_, fun hb b hc => ?_⟩
  · rw [hwalk, hmap _ hb]
  · rw [hwalk] at hc
    rcases hs : NetworkState.tryFromByte (data.getD 24 0) with v | s
    · have : NetworkState.tryFromByte (data.getD 24 0) = .ok
          (if data.getD 24 0 = 0 then .Low
           else if data.getD 24 0 = 1 then .Normal
           else if data.getD 24 0 = 2 then .High else .Extreme) := by
        unfold NetworkState.tryFromByte
        split_ifs <;> first | rfl | omega
      rw [this] at hs
      exact Except.noConfusion hs
    · rw [hs] at hc
      simp only [] at hc
      rw [byteAt_eq (by omega : (25 : Nat) < data.length)] at hc
      simp only [DecM.bind_pure] at hc
      rw [sliceIdx_eq (by omega) (by omega)] at hc
      simp only [DecM.bind_pure] at hc
      rw [read_u32_ok (by omega : (30 : Nat) + 4 ≤ data.length)] at hc
      simp only [DecM.bind_pure] at hc
      rw [read_u64_ok (by omega : (34 : Nat) + 8 ≤ data.length)] at hc
      simp only [DecM.bind_pure] at hc
      rcases DecM.bind_eq_throw_iff.mp hc with hw | ⟨u, _, hrest⟩
      · exact withCapacity_ne_throw _ _ _ hw
      · rcases DecM.bind_eq_throw_iff.mp hrest with hx | ⟨a, _, hfa⟩
        · obtain ⟨x, y, hxy⟩ := decErr_readAccounts data _ _ _ hx
          exact DecodeError.noConfusion hxy
        · simp [DecM.pure, DecM.throw] at hfa

theorem flatten_length_const {l : List Bytes} {k : Nat}
    (h : ∀ m ∈ l, m.length = k) : l.flatten.length = k * l.length := by
  induction l with
  | nil => simp
  | cons m ms ih =>
    have hm := h m (List.mem_cons_self m ms)
    have hrec := ih (fun x hx => h x (List.mem_cons_of_mem _ hx))
    simp [hm, hrec, Nat.mul_succ]
    ring

theorem readMints_drop {data : Bytes} :
    ∀ (mints : List Bytes) (off : Nat) (rest : Bytes),
      data.drop off = mints.flatten ++ rest →
      off ≤ data.length →
      (∀ m ∈ mints, m.length = 32) →
      readMints data mints.length off =
        DecM.pure (mints.map base58Encode, off + 32 * mints.length) := by
  intro mints
  induction mints with
  | nil =>
    intro off rest h hoff hm
    simp [readMints]
  | cons m ms ih =>
    intro off rest h hoff hm
    have hm32 : m.length = 32 := hm m (List.mem_cons_self m ms)
    have h' : data.drop off = m ++ (ms.flatten ++ rest) := by
      simpa [List.append_assoc] using h
    show readMints data (ms.length + 1) off = _
    unfold readMints
    rw [sliceIdx_drop h' hoff hm32]
    simp only [DecM.bind_pure]
    have hd : data.drop (off + 32) = ms.flatten ++ rest := by
      have := drop_chunk h'
      rwa [hm32] at this
    have hoff32 : off + 32 ≤ data.length := by
      have := drop_len_bound hoff h'
      omega
    rw [ih (off + 32) rest hd hoff32 (fun x hx => hm x (List.mem_cons_of_mem _ hx))]
    simp only [DecM.bind_pure]
    have harith : off + 32 + 32 * ms.length = off + 32 * (ms.length + 1) := by
      ring
    rw [harith]
    rfl

theorem readBalances_drop {data : Bytes} :
    ∀ (balances : List Nat) (off : Nat) (rest : Bytes),
      data.drop off = (balances.map encU64).flatten ++ rest →
      (∀ b ∈ balances, b < 2 ^ 64) →
      readBalances data balances.length off =
        DecM.pure (balances, off + 8 * balances.length) := by
  intro balances
  induction balances with
  | nil =>
    intro off rest h hb
    simp [readBalances]
  | cons b bs ih =>
    intro off rest h hb
    have h' : data.drop off = encU64 b ++ ((bs.map encU64).flatten ++ rest) := by
      simpa [List.append_assoc] using h
    show readBalances data (bs.length + 1) off = _
    unfold readBalances
    rw [read_u64_drop h' (hb b (List.mem_cons_self b bs))]
    simp only [DecM.bind_pure]
    have hd : data.drop (off + 8) = (bs.map encU64).flatten ++ rest := by
      have := drop_chunk h'
      simpa using this
    rw [ih (off + 8) rest hd (fun x hx => hb x (List.mem_cons_of_mem _ hx))]
    simp only [DecM.bind_pure]
    have harith : off + 8 + 8 * bs.length = off + 8 * (bs.length + 1) := by
      ring
    rw [harith]
    rfl

theorem readDecimals_drop {data : Bytes} :
    ∀ (decimals : List Int) (off : Nat) (rest : Bytes),
      data.drop off = (decimals.map encI32).flatten ++ rest →
      (∀ d ∈ decimals, -(2 ^ 31) ≤ d ∧ d < 2 ^ 31) →
      readDecimals data decimals.length off =
        DecM.pure (decimals, off + 4 * decimals.length) := by
  intro decimals
  induction decimals with
  | nil =>
    intro off rest h hd
    simp [readDecimals]
  | cons d ds ih =>
    intro off rest h hd
    have h' : data.drop off = encI32 d ++ ((ds.map encI32).flatten ++ rest) := by
      simpa [List.append_assoc] using h
    show readDecimals data (ds.length + 1) off = _
    unfold readDecimals
    rw [read_i32_drop h' (hd d (List.mem_cons_self d ds)).1
      (hd d (List.mem_cons_self d ds)).2]
    simp only [DecM.bind_pure]
    have hdd : data.drop (off + 4) = (ds.map encI32).flatten ++ rest := by
      have := drop_chunk h'
      simpa using this
    rw [ih (off + 4) rest hdd (fun x hx => hd x (List.mem_cons_of_mem _ hx))]
    simp only [DecM.bind_pure]
    have harith : off + 4 + 4 * ds.length = off + 4 * (ds.length + 1) := by
      ring
    rw [harith]
    rfl

theorem decodeOptLevel_drop {data : Bytes} {off : Nat} {o : Option OrderLevel}
    {rest : Bytes} (h : data.drop off = encOptLevel o ++ rest)
    (ho : ∀ l, o = some l → l.price < 2 ^ 64 ∧ l.size < 2 ^ 64) :
    decode_optional_order_level data off =
      DecM.pure (o, off + (encOptLevel o).length) := by
  cases o with
  | none =>
    have h' : data.drop off = 0 :: rest := by simpa [encOptLevel] using h
    obtain ⟨hb, hlt⟩ := byteAt_drop h'
    unfold decode_optional_order_level
    rw [if_neg (by omega), hb]
    simp only [DecM.bind_pure, if_true]
    simp [encOptLevel]
  | some l =>
    have h' : data.drop off =
        1 :: (encU64 l.price ++ (encU64 l.size ++ rest)) := by
      simpa [encOptLevel, List.append_assoc] using h
    obtain ⟨hb, hlt⟩ := byteAt_drop h'
    unfold decode_optional_order_level
    rw [if_neg (by omega), hb]
    simp only [DecM.bind_pure]
    rw [if_neg (by norm_num)]
    have hd1 : data.drop (off + 1) = encU64 l.price ++ (encU64 l.size ++ rest) := by
      have : data.drop off = [1] ++ (encU64 l.price ++ (encU64 l.size ++ rest)) := h'
      have hcc := drop_chunk this
      simpa using hcc
    rw [read_u64_drop hd1 (ho l rfl).1]
    simp only [DecM.bind_pure]
    have hd2 : data.drop (off + 1 + 8) = encU64 l.size ++ rest := by
      have := drop_chunk hd1
      simpa using this
    rw [read_u64_drop hd2 (ho l rfl).2]
    simp only [DecM.bind_pure]
    have hlen : (encOptLevel (some l)).length = 17 := by
      simp [encOptLevel]
    rw [hlen]

theorem decode_encode_pool_update
    (state : Bytes) (seq slot wv : Nat) (name addr : Bytes)
    (mints : List Bytes) (balances : List Nat) (decimals : List Int)
    (bid ask : Option OrderLevel)
    (hstate : state.length < 2 ^ 64)
    (hseq : seq < 2 ^ 64) (hslot : slot < 2 ^ 64) (hwv : wv < 2 ^ 64)
    (hnlen : name.length < 2 ^ 64) (hname : validUtf8 name = true)
    (haddr : addr.length = 32)
    (hmlen : mints.length < 2 ^ 64) (hm : ∀ m ∈ mints, m.length = 32)
    (hblen : balances.length < 2 ^ 64) (hb : ∀ b ∈ balances, b < 2 ^ 64)
    (hdlen : decimals.length < 2 ^ 64)
    (hd : ∀ d ∈ decimals, -(2 ^ 31) ≤ d ∧ d < 2 ^ 31)
    (hbid : ∀ l, bid = some l → l.price < 2 ^ 64 ∧ l.size < 2 ^ 64)
    (hask : ∀ l, ask = some l → l.price < 2 ^ 64 ∧ l.size < 2 ^ 64)
    (htotal : (encodePoolUpdate state seq slot wv name addr mints balances
        decimals bid ask).length ≤ isizeMax) :
    decode_pool_update (encodePoolUpdate state seq slot wv name addr mints
        balances decimals bid ask) =
      DecM.pure
        { sequence := seq
          slot := slot
          write_version := wv
          protocol_name := name
          pool_address := base58Encode addr
          token_mints := mints.map base58Encode
          token_balances := balances
          token_decimals := decimals
          best_bid := bid
          best_ask := ask
          serialized_state := state } := by
  have hbm : ∀ m ∈ balances.map encU64, m.length = 8 := by
    intro m hmem
    rcases List.mem_map.mp hmem with ⟨b, _, rfl⟩
    simp
  have hdm : ∀ m ∈ decimals.map encI32, m.length = 4 := by
    intro m hmem
    rcases List.mem_map.mp hmem with ⟨d, _, rfl⟩
    simp
  have hE0 : (encodePoolUpdate state seq slot wv name addr mints balances
      decimals bid ask).drop 0 =
      encU64 state.length ++ (state ++ (encU64 seq ++ (encU64 slot ++
        (encU64 wv ++ (encU64 name.length ++ (name ++ (addr ++
        (encU64 mints.length ++ (mints.flatten ++ (encU64 balances.length ++
        ((balances.map encU64).flatten ++ (encU64 decimals.length ++
        ((decimals.map encI32).flatten ++ (encOptLevel bid ++
        encOptLevel ask)))))))))))))) := by
    rw [List.drop_zero]
    simp only [encodePoolUpdate, List.append_assoc]
  have hd1 := drop_chunk hE0
  simp only [encU64_length, Nat.zero_add] at hd1
  have hd2 := drop_chunk hd1
  have hd3 := drop_chunk hd2
  simp only [encU64_length] at hd3
  have hd4 := drop_chunk hd3
  simp only [encU64_length] at hd4
  have hd5 := drop_chunk hd4
  simp only [encU64_length] at hd5
  have hd6 := drop_chunk hd5
  simp only [encU64_length] at hd6
  have hd7 := drop_chunk hd6
  have hd8 := drop_chunk hd7
  rw [haddr] at hd8
  have hd9 := drop_chunk hd8
  simp only [encU64_length] at hd9
  have hd10 := drop_chunk hd9
  rw [flatten_length_const hm] at hd10
  have hd11 := drop_chunk hd10
  simp only [encU64_length] at hd11
  have hd12 := drop_chunk hd11
  rw [flatten_length_const hbm] at hd12
  simp only [List.length_map] at hd12
  have hd13 := drop_chunk hd12
  simp only [encU64_length] at hd13
  have hd14 := drop_chunk hd13
  rw [flatten_length_const hdm] at hd14
  simp only [List.length_map] at hd14
  have hd15 := drop_chunk hd14
  have hd15' := hd15.trans (List.append_nil (encOptLevel ask)).symm
  have hl1 := drop_len_bound (Nat.zero_le _) hE0
  simp only [encU64_length, Nat.zero_add] at hl1
  have hl2 := drop_len_bound hl1 hd1
  have hl3 := drop_len_bound hl2 hd2
  simp only [encU64_length] at hl3
  have hl4 := drop_len_bound hl3 hd3
  simp only [encU64_length] at hl4
  have hl5 := drop_len_bound hl4 hd4
  simp only [encU64_length] at hl5
  have hl6 := drop_len_bound hl5 hd5
  simp only [encU64_length] at hl6
  have hl7 := drop_len_bound hl6 hd6
  have hl8 := drop_len_bound hl7 hd7
  rw [haddr] at hl8
  have hl9 := drop_len_bound hl8 hd8
  simp only [encU64_length] at hl9
  have hl10 := drop_len_bound hl9 hd9
  rw [flatten_length_const hm] at hl10
  have hl11 := drop_len_bound hl10 hd10
  simp only [encU64_length] at hl11
  have hl12 := drop_len_bound hl11 hd11
  rw [flatten_length_const hbm] at hl12
  simp only [List.length_map] at hl12
  have hl13 := drop_len_bound hl12 hd12
  simp only [encU64_length] at hl13
  have hl14 := drop_len_bound hl13 hd13
  rw [flatten_length_const hdm] at hl14
  simp only [List.length_map] at hl14
  have htot' : (encodePoolUpdate state seq slot wv name addr mints balances
      decimals bid ask).length < 2 ^ 63 := by
    simp only [isizeMax] at htotal
    omega
  unfold decode_pool_update
  rw [read_u64_drop hE0 hstate]
  simp only [DecM.bind_pure, Nat.zero_add]
  rw [usizeAdd_ok (by omega)]
  simp only [DecM.bind_pure]
  rw [if_neg (by omega)]
  rw [sliceIdx_drop hd1 (by omega) rfl]
  simp only [DecM.bind_pure]
  rw [read_u64_drop hd2 hseq]
  simp only [DecM.bind_pure]
  rw [read_u64_drop hd3 hslot]
  simp only [DecM.bind_pure]
  rw [read_u64_drop hd4 hwv]
  simp only [DecM.bind_pure]
  rw [read_u64_drop hd5 hnlen]
  simp only [DecM.bind_pure]
  rw [usizeAdd_ok (by omega)]
  simp only [DecM.bind_pure]
  rw [if_neg (by omega)]
  rw [sliceIdx_drop hd6 (by omega) rfl]
  simp only [DecM.bind_pure]
  rw [if_neg (by simp [hname])]
  rw [if_neg (by omega)]
  rw [sliceIdx_drop hd7 (by omega) haddr]
  simp only [DecM.bind_pure]
  rw [read_u64_drop hd8 hmlen]
  simp only [DecM.bind_pure]
  rw [usizeMul_ok (by omega)]
  simp only [DecM.bind_pure]
  rw [usizeAdd_ok (by omega)]
  simp only [DecM.bind_pure]
  rw [if_neg (by omega)]
  rw [withCapacity_ok (by simp only [isizeMax]; omega)]
  simp only [DecM.bind_pure]
  rw [readMints_drop _ _ _ hd9 (by omega) hm]
  simp only [DecM.bind_pure]
  rw [read_u64_drop hd10 hblen]
  simp only [DecM.bind_pure]
  rw [withCapacity_ok (by simp only [isizeMax]; omega)]
  simp only [DecM.bind_pure]
  rw [readBalances_drop _ _ _ hd11 hb]
  simp only [DecM.bind_pure]
  rw [read_u64_drop hd12 hdlen]
  simp only [DecM.bind_pure]
  rw [withCapacity_ok (by simp only [isizeMax]; omega)]
  simp only [DecM.bind_pure]
  rw [readDecimals_drop _ _ _ hd13 hd]
  simp only [DecM.bind_pure]
  rw [decodeOptLevel_drop hd14 hbid]
  simp only [DecM.bind_pure]
  rw [decodeOptLevel_drop hd15' hask]
  simp only [DecM.bind_pure]

/-- C3: for every byte sequence that is a valid Pool Update encoding per
the specified field order (length-prefixed state blob, sequence, slot,
write_version, length-prefixed UTF-8 protocol name, 32-byte pool address,
length-prefixed 32-byte mints, length-prefixed u64 balances, length-prefixed
i32 decimals, optional best bid, optional best ask, where an optional level
is a presence flag optionally followed by price and size), decoding
recovers exactly the encoded field values, with the pool address and each
mint rendered as base58 text. -/
theorem pool_update_round_trip
    (state : Bytes) (seq slot wv : Nat) (name addr : Bytes)
    (mints : List Bytes) (balances : List Nat) (decimals : List Int)
    (bid ask : Option OrderLevel)
    (hstate : state.length < 2 ^ 64)
    (hseq : seq < 2 ^ 64) (hslot : slot < 2 ^ 64) (hwv : wv < 2 ^ 64)
    (hnlen : name.length < 2 ^ 64) (hname : validUtf8 name = true)
    (haddr : addr.length = 32)
    (hmlen : mints.length < 2 ^ 64) (hm : ∀ m ∈ mints, m.length = 32)
    (hblen : balances.length < 2 ^ 64) (hb : ∀ b ∈ balances, b < 2 ^ 64)
    (hdlen : decimals.length < 2 ^ 64)
    (hd : ∀ d ∈ decimals, -(2 ^ 31) ≤ d ∧ d < 2 ^ 31)
    (hbid : ∀ l, bid = some l → l.price < 2 ^ 64 ∧ l.size < 2 ^ 64)
    (hask : ∀ l, ask = some l → l.price < 2 ^ 64 ∧ l.size < 2 ^ 64)
    (htotal : (encodePoolUpdate state seq slot wv name addr mints balances
        decimals bid ask).length ≤ isizeMax) :
    decode_pool_update (encodePoolUpdate state seq slot wv name addr mints
        balances decimals bid ask) =
      DecM.pure
        { sequence := seq
          slot := slot
          write_version := wv
          protocol_name := name
          pool_address := base58Encode addr
          token_mints := mints.map base58Encode
          token_balances := balances
          token_decimals := decimals
          best_bid := bid
          best_ask := ask
          serialized_state := state } :=
  decode_encode_pool_update state seq slot wv name addr mints balances
    decimals bid ask hstate hseq hslot hwv hnlen hname haddr hmlen hm hblen
    hb hdlen hd hbid hask htotal

set_option maxRecDepth 8192 in
/-- Witness for C3 at a concrete encoding: 2-byte state blob, name "a",
all-zero pool address, one all-zero mint, one balance, one negative
decimal, a present best bid and an absent best ask. -/
theorem pool_update_round_trip_witness :
    decode_pool_update (encodePoolUpdate [1, 2] 5 6 7 [97]
        (List.replicate 32 0) [List.replicate 32 0] [9] [(-1 : Int)]
        (some ⟨3, 4⟩) none) =
      DecM.pure
        { sequence := 5
          slot := 6
          write_version := 7
          protocol_name := [97]
          pool_address := base58Encode (List.replicate 32 0)
          token_mints := [List.replicate 32 0].map base58Encode
          token_balances := [9]
          token_decimals := [(-1 : Int)]
          best_bid := some ⟨3, 4⟩
          best_ask := none
          serialized_state := [1, 2] } :=
  pool_update_round_trip [1, 2] 5 6 7 [97] (List.replicate 32 0)
    [List.replicate 32 0] [9] [(-1 : Int)] (some ⟨3, 4⟩) none
    (by decide) (by decide) (by decide) (by decide) (by decide) (by decide)
    (by decide) (by decide) (by decide) (by decide) (by decide) (by decide)
    (by decide)
    (by intro l hl; cases hl; exact ⟨by decide, by decide⟩)
    (by intro l hl; cases hl)
    (by decide)

/-- C7: for every otherwise well-formed Pool Update payload whose three
declared element counts (mints, balances, decimals) differ pairwise,
decoding still succeeds and returns the three lists with their independent
lengths — no cross-field length validation is performed. -/
theorem pool_update_independent_counts
    (state : Bytes) (seq slot wv : Nat) (name addr : Bytes)
    (mints : List Bytes) (balances : List Nat) (decimals : List Int)
    (bid ask : Option OrderLevel)
    (hstate : state.length < 2 ^ 64)
    (hseq : seq < 2 ^ 64) (hslot : slot < 2 ^ 64) (hwv : wv < 2 ^ 64)
    (hnlen : name.length < 2 ^ 64) (hname : validUtf8 name = true)
    (haddr : addr.length = 32)
    (hmlen : mints.length < 2 ^ 64) (hm : ∀ m ∈ mints, m.length = 32)
    (hblen : balances.length < 2 ^ 64) (hb : ∀ b ∈ balances, b < 2 ^ 64)
    (hdlen : decimals.length < 2 ^ 64)
    (hd : ∀ d ∈ decimals, -(2 ^ 31) ≤ d ∧ d < 2 ^ 31)
    (hbid : ∀ l, bid = some l → l.price < 2 ^ 64 ∧ l.size < 2 ^ 64)
    (hask : ∀ l, ask = some l → l.price < 2 ^ 64 ∧ l.size < 2 ^ 64)
    (htotal : (encodePoolUpdate state seq slot wv name addr mints balances
        decimals bid ask).length ≤ isizeMax)
    (hne1 : mints.length ≠ balances.length)
    (hne2 : balances.length ≠ decimals.length)
    (hne3 : mints.length ≠ decimals.length) :
    ∃ u : PoolUpdate,
      decode_pool_update (encodePoolUpdate state seq slot wv name addr mints
          balances decimals bid ask) = DecM.pure u ∧
      u.token_mints.length = mints.length ∧
      u.token_balances.length = balances.length ∧
      u.token_decimals.length = decimals.length ∧
      u.token_mints.length ≠ u.token_balances.length ∧
      u.token_balances.length ≠ u.token_decimals.length ∧
      u.token_mints.length ≠ u.token_decimals.length := by
  refine ⟨_, decode_encode_pool_update state seq slot wv name addr mints
    balances decimals bid ask hstate hseq hslot hwv hnlen hname haddr hmlen
    hm hblen hb hdlen hd hbid hask htotal, ?_, ?_, ?_, ?_, ?_, ?_⟩ <;>
    simp [List.length_map, hne1, hne2, hne3]

/-- Witness for C7 at a concrete encoding with zero mints, one balance and
two decimals. -/
theorem pool_update_independent_counts_witness :
    ∃ u : PoolUpdate,
      decode_pool_update (encodePoolUpdate [] 1 2 3 [] (List.replicate 32 0)
          [] [9] [(0 : Int), 1] none none) = DecM.pure u ∧
      u.token_mints.length = ([] : List Bytes).length ∧
      u.token_balances.length = [(9 : Nat)].length ∧
      u.token_decimals.length = [(0 : Int), 1].length ∧
      u.token_mints.length ≠ u.token_balances.length ∧
      u.token_balances.length ≠ u.token_decimals.length ∧
      u.token_mints.length ≠ u.token_decimals.length :=
  pool_update_independent_counts [] 1 2 3 [] (List.replicate 32 0) [] [9]
    [(0 : Int), 1] none none
    (by decide) (by decide) (by decide) (by decide) (by decide) (by decide)
    (by decide) (by decide) (by decide) (by decide) (by decide) (by decide)
    (by decide)
    (by intro l hl; cases hl)
    (by intro l hl; cases hl)
    (by decide)
    (by decide) (by decide) (by decide)

theorem flatten_length_le {α : Type} (f : α → Bytes) (k : Nat) :
    ∀ (l : List α), (∀ x ∈ l, (f x).length ≤ k) →
      (l.map f).flatten.length ≤ k * l.length := by
  intro l
  induction l with
  | nil => intro _; simp
  | cons a l ih =>
    intro h
    have ha := h a (List.mem_cons_self a l)
    have hrec := ih (fun x hx => h x (List.mem_cons_of_mem _ hx))
    simp only [List.map_cons, List.flatten_cons, List.length_append,
      List.length_cons, Nat.mul_succ]
    omega

theorem decodeBatchSubs_drop {data : Bytes} (hdl : data.length ≤ isizeMax) :
    ∀ (pairs : List (Bytes × PoolUpdate)) (off : Nat) (rest : Bytes),
      data.drop off =
        (pairs.map (fun p => encU32 p.1.length ++ p.1)).flatten ++ rest →
      off ≤ data.length →
      (∀ p ∈ pairs, p.1.length < 2 ^ 32) →
      (∀ p ∈ pairs, decode_pool_update p.1 = DecM.pure p.2) →
      ∃ last, decodeBatchSubs data pairs.length off =
        DecM.pure (pairs.map Prod.snd, last) := by
  intro pairs
  induction pairs with
  | nil =>
    intro off rest h hoff hlen hdec
    exact ⟨off, by simp [decodeBatchSubs]⟩
  | cons p ps ih =>
    intro off rest h hoff hlen hdec
    have h' : data.drop off = encU32 p.1.length ++
        (p.1 ++ ((ps.map (fun q => encU32 q.1.length ++ q.1)).flatten ++
          rest)) := by
      simpa [List.append_assoc] using h
    have hoff4 : off + 4 ≤ data.length := by
      have := drop_len_bound hoff h'
      simpa using this
    have hd' : data.drop (off + 4) = p.1 ++
        ((ps.map (fun q => encU32 q.1.length ++ q.1)).flatten ++ rest) := by
      have := drop_chunk h'
      simpa using this
    have hb' : off + 4 + p.1.length ≤ data.length :=
      drop_len_bound hoff4 hd'
    show ∃ last, decodeBatchSubs data (ps.length + 1) off = _
    unfold decodeBatchSubs
    rw [read_u32_drop h' (hlen p (List.mem_cons_self p ps))]
    simp only [DecM.bind_pure]
    rw [usizeAdd_ok (by simp only [isizeMax] at hdl; omega)]
    simp only [DecM.bind_pure]
    rw [if_neg (by omega)]
    rw [sliceIdx_drop hd' hoff4 rfl]
    simp only [DecM.bind_pure]
    rw [hdec p (List.mem_cons_self p ps)]
    simp only [DecM.bind_pure]
    have hd'' := drop_chunk hd'
    obtain ⟨last, hrec⟩ := ih (off + 4 + p.1.length) rest hd'' (by omega)
      (fun q hq => hlen q (List.mem_cons_of_mem _ hq))
      (fun q hq => hdec q (List.mem_cons_of_mem _ hq))
    rw [hrec]
    simp only [DecM.bind_pure]
    exact ⟨last, rfl⟩

theorem decode_encode_batch (pairs : List (Bytes × PoolUpdate))
    (hc : pairs.length < 2 ^ 16)
    (hlen : ∀ p ∈ pairs, p.1.length < 2 ^ 32)
    (hdec : ∀ p ∈ pairs, decode_pool_update p.1 = DecM.pure p.2) :
    decode_pool_update_batch (encodeBatch (pairs.map Prod.fst)) =
      DecM.pure (pairs.map Prod.snd) := by
  have h0 : (encodeBatch (pairs.map Prod.fst)).drop 0 =
      encU16 pairs.length ++
        ((pairs.map (fun p => encU32 p.1.length ++ p.1)).flatten ++ []) := by
    rw [List.drop_zero, List.append_nil]
    simp [encodeBatch, List.map_map, Function.comp_def]
  have hfl : ((pairs.map (fun p => encU32 p.1.length ++ p.1)).flatten).length ≤
      (4 + 2 ^ 32) * pairs.length := by
    refine flatten_length_le _ _ pairs ?_
    intro p hp
    have := hlen p hp
    simp only [List.length_append, encU32_length]
    omega
  have hdl : (encodeBatch (pairs.map Prod.fst)).length ≤ isizeMax := by
    have hbl : (encodeBatch (pairs.map Prod.fst)).length =
        2 + ((pairs.map (fun p => encU32 p.1.length ++ p.1)).flatten).length := by
      simp [encodeBatch, List.map_map, Function.comp_def]
    rw [hbl]
    simp only [isizeMax]
    omega
  unfold decode_pool_update_batch
  rw [read_u16_drop h0 hc]
  simp only [DecM.bind_pure, Nat.zero_add]
  rw [withCapacity_ok (by simp only [isizeMax]; omega)]
  simp only [DecM.bind_pure]
  have hd2 : (encodeBatch (pairs.map Prod.fst)).drop 2 =
      (pairs.map (fun p => encU32 p.1.length ++ p.1)).flatten ++ [] := by
    have := drop_chunk h0
    simpa using this
  have h2le : (2 : Nat) ≤ (encodeBatch (pairs.map Prod.fst)).length := by
    have := drop_len_bound (Nat.zero_le _) h0
    simpa using this
  obtain ⟨last, hsubs⟩ := decodeBatchSubs_drop hdl pairs 2 [] hd2 h2le hlen hdec
  rw [hsubs]
  simp only [DecM.bind_pure]

/-- C4: a Pool Update Batch payload with little-endian `u16` count `N`
followed by `N` well-formed `u32`-length-prefixed sub-records decodes to
exactly `N` pool updates in encoded order, and the dispatcher delivers
exactly `N` individual pool-update events to the registered pool-update
handler, in that order. -/
theorem batch_dispatch (pairs : List (Bytes × PoolUpdate))
    (reg : HandlerRegistry)
    (hreg : reg.pool_update_registered = true)
    (hc : pairs.length < 2 ^ 16)
    (hlen : ∀ p ∈ pairs, p.1.length < 2 ^ 32)
    (hdec : ∀ p ∈ pairs, decode_pool_update p.1 = DecM.pure p.2) :
    decode_pool_update_batch (encodeBatch (pairs.map Prod.fst)) =
      DecM.pure (pairs.map Prod.snd) ∧
    (pairs.map Prod.snd).length = pairs.length ∧
    handleBinaryFrame reg (0x0E :: encodeBatch (pairs.map Prod.fst)) =
      some ((pairs.map Prod.snd).map Event.poolUpdateCall) := by
  have hdecb := decode_encode_batch pairs hc hlen hdec
  refine ⟨hdecb, by simp, ?_⟩
  have hmsg : decode_message 0x0E (encodeBatch (pairs.map Prod.fst)) =
      DecM.pure (some (.poolUpdateBatch (pairs.map Prod.snd))) := by
    unfold decode_message
    have htf : MessageType.tryFromByte 0x0E = .ok .PoolUpdateBatch := by
      decide
    rw [htf]
    simp only [DecM.bind_pure]
    rw [hdecb]
    simp only [DecM.bind_pure]
  unfold handleBinaryFrame
  simp [hmsg, DecM.pure, dispatchDecoded, hreg]

/-- Witness for C4: a batch of one minimal pool-update sub-record decodes
to that one update and dispatches exactly one pool-update event. -/
theorem batch_dispatch_witness :
    decode_pool_update_batch
        (encodeBatch ([(pu0payload, pu0)].map Prod.fst)) =
      DecM.pure ([(pu0payload, pu0)].map Prod.snd) ∧
    ([(pu0payload, pu0)].map Prod.snd).length = [(pu0payload, pu0)].length ∧
    handleBinaryFrame regAll
        (0x0E :: encodeBatch ([(pu0payload, pu0)].map Prod.fst)) =
      some (([(pu0payload, pu0)].map Prod.snd).map Event.poolUpdateCall) :=
  batch_dispatch [(pu0payload, pu0)] regAll (by decide) (by decide)
    (by decide) (by decide)

theorem getD_append_left {l₁ l₂ : List Nat} {n : Nat} (h : n < l₁.length) :
    (l₁ ++ l₂).getD n 0 = l₁.getD n 0 := by
  rw [List.getD_eq_getElem?_getD, List.getD_eq_getElem?_getD,
    List.getElem?_append, if_pos h]

theorem read_u64_ext {data junk : Bytes} {off : Nat} {r : Nat × Nat}
    (h : read_u64 data off = DecM.pure r) :
    read_u64 (data ++ junk) off = DecM.pure r := by
  rw [read_u64_eq] at h
  rw [read_u64_eq]
  split at h
  next hle =>
    rw [if_pos (by simp [List.length_append]; omega),
      extract_append (by omega) hle]
    exact h
  next => exact absurd h (by simp)

theorem sliceIdx_ext {data junk : Bytes} {a b : Nat} {s : Bytes}
    (h : sliceIdx data a b = DecM.pure s) :
    sliceIdx (data ++ junk) a b = DecM.pure s := by
  unfold sliceIdx at h ⊢
  split at h
  next hab =>
    rw [if_pos ⟨hab.1, by simp [List.length_append]; omega⟩,
      extract_append hab.1 hab.2]
    exact h
  next => exact absurd h (by simp [DecM.panicWith, DecM.pure])

theorem byteAt_ext {data junk : Bytes} {i b : Nat}
    (h : byteAt data i = DecM.pure b) :
    byteAt (data ++ junk) i = DecM.pure b := by
  unfold byteAt at h ⊢
  split at h
  next hlt =>
    rw [if_pos (by simp [List.length_append]; omega), getD_append_left hlt]
    exact h
  next => exact absurd h (by simp [DecM.panicWith, DecM.pure])

theorem decodeOptLevel_ext {data junk : Bytes} {off : Nat}
    {r : Option OrderLevel × Nat}
    (h : decode_optional_order_level data off = DecM.pure r) :
    decode_optional_order_level (data ++ junk) off = DecM.pure r := by
  unfold decode_optional_order_level at h ⊢
  split at h
  next => exact absurd h (by simp)
  next hoff =>
    rw [if_neg (by simp [List.length_append]; omega)]
    rcases DecM.bind_eq_pure_iff.mp h with ⟨b, hb, h2⟩
    rw [byteAt_ext hb]
    simp only [DecM.bind_pure]
    by_cases hz : b = 0
    · rw [if_pos hz]
      rw [if_pos hz] at h2
      exact h2
    · rw [if_neg hz]
      rw [if_neg hz] at h2
      rcases DecM.bind_eq_pure_iff.mp h2 with ⟨pr, hpr, h3⟩
      rcases DecM.bind_eq_pure_iff.mp h3 with ⟨sz, hsz, h4⟩
      rw [read_u64_ext hpr]
      simp only [DecM.bind_pure]
      rw [read_u64_ext hsz]
      simp only [DecM.bind_pure]
      exact h4

theorem readMints_ext {data junk : Bytes} :
    ∀ {n off : Nat} {r : List String × Nat},
      readMints data n off = DecM.pure r →
      readMints (data ++ junk) n off = DecM.pure r := by
  intro n
  induction n with
  | zero =>
    intro off r h
    simpa [readMints] using h
  | succ n ih =>
    intro off r h
    unfold readMints at h ⊢
    rcases DecM.bind_eq_pure_iff.mp h with ⟨chunk, hchunk, h2⟩
    rcases DecM.bind_eq_pure_iff.mp h2 with ⟨rest, hrest, h3⟩
    rw [sliceIdx_ext hchunk]
    simp only [DecM.bind_pure]
    rw [ih hrest]
    simp only [DecM.bind_pure]
    exact h3

theorem readBalances_ext {data junk : Bytes} :
    ∀ {n off : Nat} {r : List Nat × Nat},
      readBalances data n off = DecM.pure r →
      readBalances (data ++ junk) n off = DecM.pure r := by
  intro n
  induction n with
  | zero =>
    intro off r h
    simpa [readBalances] using h
  | succ n ih =>
    intro off r h
    unfold readBalances at h ⊢
    rcases DecM.bind_eq_pure_iff.mp h with ⟨v, hv, h2⟩
    rcases DecM.bind_eq_pure_iff.mp h2 with ⟨rest, hrest, h3⟩
    rw [read_u64_ext hv]
    simp only [DecM.bind_pure]
    rw [ih hrest]
    simp only [DecM.bind_pure]
    exact h3

theorem read_i32_ext {data junk : Bytes} {off : Nat} {r : Int × Nat}
    (h : read_i32 data off = DecM.pure r) :
    read_i32 (data ++ junk) off = DecM.pure r := by
  rw [read_i32_eq] at h
  rw [read_i32_eq]
  split at h
  next hle =>
    rw [if_pos (by simp [List.length_append]; omega),
      extract_append (by omega) hle]
    exact h
  next => exact absurd h (by simp)

theorem readDecimals_ext {data junk : Bytes} :
    ∀ {n off : Nat} {r : List Int × Nat},
      readDecimals data n off = DecM.pure r →
      readDecimals (data ++ junk) n off = DecM.pure r := by
  intro n
  induction n with
  | zero =>
    intro off r h
    simpa [readDecimals] using h
  | succ n ih =>
    intro off r h
    unfold readDecimals at h ⊢
    rcases DecM.bind_eq_pure_iff.mp h with ⟨v, hv, h2⟩
    rcases DecM.bind_eq_pure_iff.mp h2 with ⟨rest, hrest, h3⟩
    rw [read_i32_ext hv]
    simp only [DecM.bind_pure]
    rw [ih hrest]
    simp only [DecM.bind_pure]
    exact h3

theorem decode_pool_update_ext {data junk : Bytes} {u : PoolUpdate}
    (h : decode_pool_update data = DecM.pure u) :
    decode_pool_update (data ++ junk) = DecM.pure u := by
  unfold decode_pool_update at h ⊢
  rcases DecM.bind_eq_pure_iff.mp h with ⟨sl, hsl, h⟩
  rw [read_u64_ext hsl]
  simp only [DecM.bind_pure]
  rcases DecM.bind_eq_pure_iff.mp h with ⟨stEnd, hstEnd, h⟩
  rw [hstEnd]
  simp only [DecM.bind_pure]
  split at h
  next => exact absurd h (by simp)
  next hg1 =>
  rw [if_neg (by simp [List.length_append]; omega)]
  rcases DecM.bind_eq_pure_iff.mp h with ⟨st, hst, h⟩
  rw [sliceIdx_ext hst]
  simp only [DecM.bind_pure]
  rcases DecM.bind_eq_pure_iff.mp h with ⟨seq, hseq, h⟩
  rw [read_u64_ext hseq]
  simp only [DecM.bind_pure]
  rcases DecM.bind_eq_pure_iff.mp h with ⟨slot, hslot, h⟩
  rw [read_u64_ext hslot]
  simp only [DecM.bind_pure]
  rcases DecM.bind_eq_pure_iff.mp h with ⟨wv, hwv, h⟩
  rw [read_u64_ext hwv]
  simp only [DecM.bind_pure]
  rcases DecM.bind_eq_pure_iff.mp h with ⟨nl, hnl, h⟩
  rw [read_u64_ext hnl]
  simp only [DecM.bind_pure]
  rcases DecM.bind_eq_pure_iff.mp h with ⟨nameEnd, hnameEnd, h⟩
  rw [hnameEnd]
  simp only [DecM.bind_pure]
  split at h
  next => exact absurd h (by simp)
  next hg2 =>
  rw [if_neg (by simp [List.length_append]; omega)]
  rcases DecM.bind_eq_pure_iff.mp h with ⟨nb, hnb, h⟩
  rw [sliceIdx_ext hnb]
  simp only [DecM.bind_pure]
  split at h
  next => exact absurd h (by simp)
  next hutf =>
  rw [if_neg hutf]
  split at h
  next => exact absurd h (by simp)
  next hg3 =>
  rw [if_neg (by simp [List.length_append]; omega)]
  rcases DecM.bind_eq_pure_iff.mp h with ⟨addr, haddr, h⟩
  rw [sliceIdx_ext haddr]
  simp only [DecM.bind_pure]
  rcases DecM.bind_eq_pure_iff.mp h with ⟨nm, hnm, h⟩
  rw [read_u64_ext hnm]
  simp only [DecM.bind_pure]
  rcases DecM.bind_eq_pure_iff.mp h with ⟨mintsBytes, hmb, h⟩
  rw [hmb]
  simp only [DecM.bind_pure]
  rcases DecM.bind_eq_pure_iff.mp h with ⟨mintsEnd, hme, h⟩
  rw [hme]
  simp only [DecM.bind_pure]
  split at h
  next => exact absurd h (by simp)
  next hg4 =>
  rw [if_neg (by simp [List.length_append]; omega)]
  rcases DecM.bind_eq_pure_iff.mp h with ⟨c1, hc1, h⟩
  rw [hc1]
  simp only [DecM.bind_pure]
  rcases DecM.bind_eq_pure_iff.mp h with ⟨mints, hmints, h⟩
  rw [readMints_ext hmints]
  simp only [DecM.bind_pure]
  rcases DecM.bind_eq_pure_iff.mp h with ⟨nbal, hnbal, h⟩
  rw [read_u64_ext hnbal]
  simp only [DecM.bind_pure]
  rcases DecM.bind_eq_pure_iff.mp h with ⟨c2, hc2, h⟩
  rw [hc2]
  simp only [DecM.bind_pure]
  rcases DecM.bind_eq_pure_iff.mp h with ⟨balances, hbal, h⟩
  rw [readBalances_ext hbal]
  simp only [DecM.bind_pure]
  rcases DecM.bind_eq_pure_iff.mp h with ⟨nd, hnd, h⟩
  rw [read_u64_ext hnd]
  simp only [DecM.bind_pure]
  rcases DecM.bind_eq_pure_iff.mp h with ⟨c3, hc3, h⟩
  rw [hc3]
  simp only [DecM.bind_pure]
  rcases DecM.bind_eq_pure_iff.mp h with ⟨decimals, hdec, h⟩
  rw [readDecimals_ext hdec]
  simp only [DecM.bind_pure]
  rcases DecM.bind_eq_pure_iff.mp h with ⟨bid, hbid, h⟩
  rw [decodeOptLevel_ext hbid]
  simp only [DecM.bind_pure]
  rcases DecM.bind_eq_pure_iff.mp h with ⟨ask, hask, h⟩
  rw [decodeOptLevel_ext hask]
  simp only [DecM.bind_pure]
  exact h

theorem decode_blockhash_ext {data junk : Bytes} {b : Blockhash}
    (h : decode_blockhash data = DecM.pure b) :
    decode_blockhash (data ++ junk) = DecM.pure b := by
  unfold decode_blockhash at h ⊢
  split at h
  next => exact absurd h (by simp)
  next hg =>
  rw [if_neg (by simp [List.length_append]; omega)]
  rcases DecM.bind_eq_pure_iff.mp h with ⟨slot, hslot, h⟩
  rw [read_u64_ext hslot]
  simp only [DecM.bind_pure]
  rcases DecM.bind_eq_pure_iff.mp h with ⟨ts, hts, h⟩
  rw [read_u64_ext hts]
  simp only [DecM.bind_pure]
  rcases DecM.bind_eq_pure_iff.mp h with ⟨hb, hhb, h⟩
  rw [sliceIdx_ext hhb]
  simp only [DecM.bind_pure]
  rcases DecM.bind_eq_pure_iff.mp h with ⟨bh, hbh, h⟩
  rw [read_u64_ext hbh]
  simp only [DecM.bind_pure]
  rcases DecM.bind_eq_pure_iff.mp h with ⟨lv, hlv, h⟩
  rw [read_u64_ext hlv]
  simp only [DecM.bind_pure]
  rcases DecM.bind_eq_pure_iff.mp h with ⟨sb, hsb, h⟩
  rw [byteAt_ext hsb]
  simp only [DecM.bind_pure]
  exact h

/-- C10: for every payload that decodes successfully as a Pool Update or
Blockhash record, appending arbitrary extra bytes after the last decoded
field still decodes successfully to the same record value: the decoders
consume only the bytes the fields declare and never require the payload to
be exactly consumed. -/
theorem decode_ignores_trailing_bytes (data junk : Bytes) :
    (∀ u, decode_pool_update data = DecM.pure u →
      decode_pool_update (data ++ junk) = DecM.pure u) ∧
    (∀ b, decode_blockhash data = DecM.pure b →
      decode_blockhash (data ++ junk) = DecM.pure b) :=
  ⟨fun _ h => decode_pool_update_ext h, fun _ h => decode_blockhash_ext h⟩

/-- Witness for C10: the minimal pool-update and blockhash payloads still
decode to the same records after appending two junk bytes. -/
theorem decode_ignores_trailing_bytes_witness :
    decode_pool_update (pu0payload ++ [7, 7]) = DecM.pure pu0 ∧
    decode_blockhash (bh0payload ++ [7, 7]) = DecM.pure bh0 :=
  ⟨(decode_ignores_trailing_bytes pu0payload [7, 7]).1 pu0 (by decide),
   (decode_ignores_trailing_bytes bh0payload [7, 7]).2 bh0 (by decide)⟩

/-- C9: every text frame parsing as a JSON object whose "type" field is the
string "heartbeat" invokes the registered heartbeat handler with a
`Heartbeat` whose fields default to 0 when missing or not representable as
an unsigned 64-bit integer (`subscriptions` additionally truncated to
`u32`); such a frame never reaches the error handler. -/
theorem heartbeat_text_dispatch (reg : HandlerRegistry)
    (fields : List (String × Json))
    (hreg : reg.heartbeat_registered = true)
    (hty : jsonLookup fields "type" = some (.str "heartbeat")) :
    handleTextFrame reg (.obj fields) =
      [.heartbeatCall (mkHeartbeat fields)] ∧
    (∀ m, TextAction.errorCall m ∉ handleTextFrame reg (.obj fields)) ∧
    (jsonLookup fields "timestamp_ms" = none →
      (mkHeartbeat fields).timestamp_ms = 0) ∧
    (∀ v, jsonLookup fields "timestamp_ms" = some v → asU64 v = none →
      (mkHeartbeat fields).timestamp_ms = 0) ∧
    (jsonLookup fields "uptime_seconds" = none →
      (mkHeartbeat fields).uptime_seconds = 0) ∧
    (∀ v, jsonLookup fields "uptime_seconds" = some v → asU64 v = none →
      (mkHeartbeat fields).uptime_seconds = 0) ∧
    (jsonLookup fields "messages_received" = none →
      (mkHeartbeat fields).messages_received = 0) ∧
    (∀ v, jsonLookup fields "messages_received" = some v → asU64 v = none →
      (mkHeartbeat fields).messages_received = 0) ∧
    (jsonLookup fields "messages_sent" = none →
      (mkHeartbeat fields).messages_sent = 0) ∧
    (∀ v, jsonLookup fields "messages_sent" = some v → asU64 v = none →
      (mkHeartbeat fields).messages_sent = 0) ∧
    (jsonLookup fields "subscriptions" = none →
      (mkHeartbeat fields).subscriptions = 0) ∧
    (∀ v, jsonLookup fields "subscriptions" = some v → asU64 v = none →
      (mkHeartbeat fields).subscriptions = 0) := by
  have hmain : handleTextFrame reg (.obj fields) =
      [.heartbeatCall (mkHeartbeat fields)] := by
    unfold handleTextFrame
    simp [hty, hreg]
  refine ⟨hmain, ?_, fun h => by simp [mkHeartbeat, h],
    fun v hv ha => by simp [mkHeartbeat, hv, ha],
    fun h => by simp [mkHeartbeat, h],
    fun v hv ha => by simp [mkHeartbeat, hv, ha],
    fun h => by simp [mkHeartbeat, h],
    fun v hv ha => by simp [mkHeartbeat, hv, ha],
    fun h => by simp [mkHeartbeat, h],
    fun v hv ha => by simp [mkHeartbeat, hv, ha],
    fun h => by simp [mkHeartbeat, h],
    fun v hv ha => by simp [mkHeartbeat, hv, ha]⟩
  intro m hmem
  rw [hmain] at hmem
  simp at hmem

/-- Witness for C9 at a concrete heartbeat object whose `timestamp_ms` is a
string, `uptime_seconds` is negative and `messages_sent` is 7: the handler
receives zeros for the unrepresentable fields and 7 for `messages_sent`. -/
theorem heartbeat_text_dispatch_witness :
    handleTextFrame regAll
        (.obj [("type", .str "heartbeat"), ("timestamp_ms", .str "oops"),
               ("uptime_seconds", .num (-1)), ("messages_sent", .num 7)]) =
      [.heartbeatCall (mkHeartbeat
        [("type", .str "heartbeat"), ("timestamp_ms", .str "oops"),
         ("uptime_seconds", .num (-1)), ("messages_sent", .num 7)])] ∧
    mkHeartbeat
        [("type", .str "heartbeat"), ("timestamp_ms", .str "oops"),
         ("uptime_seconds", .num (-1)), ("messages_sent", .num 7)] =
      { timestamp_ms := 0
        uptime_seconds := 0
        messages_received := 0
        messages_sent := 7
        subscriptions := 0 } :=
  ⟨(heartbeat_text_dispatch regAll
      [("type", .str "heartbeat"), ("timestamp_ms", .str "oops"),
       ("uptime_seconds", .num (-1)), ("messages_sent", .num 7)]
      rfl rfl).1,
   by decide⟩

/-- C8: the claim describes the documented contract ("client sends exactly
one JSON object per subscription change"), but the code cannot satisfy it:
`K256WebSocketClient::new` binds the `mpsc` receiver to the unused `_rx`,
which is dropped when `new` returns, so every later `subscribe` send fails
with `SendError` and nothing is ever enqueued.  This theorem evaluates the
model at the failing input. -/
theorem subscribe_on_new_client_fails (req : SubscribeRequest) :
    subscribe clientNew req =
      Except.error (serializeSubscribeRequest req) ∧
    (∀ c, subscribe clientNew req ≠ Except.ok c) ∧
    clientNew.tx.receiver_alive = false ∧
    clientNew.tx.buffered = [] := by
  refine ⟨rfl, ?_, rfl, rfl⟩
  intro c hc
  rw [show subscribe clientNew req =
      Except.error (serializeSubscribeRequest req) from rfl] at hc
  exact Except.noConfusion hc

/-- Witness for C6 at a concrete 42-byte payload whose state byte is 4:
decoding fails with `InvalidNetworkState 4`. -/
theorem decode_fee_market_state_byte_witness :
    decode_fee_market c6payload = DecM.throw (.invalidNetworkState 4) := by
  have h := (decode_fee_market_state_byte c6payload (by decide)).2.1 (by decide)
  have h2 : c6payload.getD 24 0 = 4 := by decide
  rwa [h2] at h

end K256

